import Mathlib

/-!
Verification development for the TextBasedRoguelite repository
(`src/roguelite/{world,decay,entities,items,enemies,game}.py`).

Modeling conventions:
* Python `int` is `ℤ` (or `ℕ` for list indices / decay stage counters that the
  code keeps non-negative); Python `float` quantities (reward multipliers,
  instability, random() draws) are modeled as `ℚ`.
* `random.Random` is modeled as `PyRandom`: a deterministic stream of raw
  natural-number draws derived from the seed, with each library call
  (`randint`, `choice`, `choices`, `shuffle`, `random`) consuming draws.  This
  abstracts the Mersenne-Twister: the claims proved here depend only on the
  stream being a deterministic function of the seed and on the range/weight
  structure of each call, not on the distribution of draws.
* Python dicts are association lists (`List (String × _)`); dict assignment is
  `putA`/`updateA`, lookup is `lookupA`.
* Python `round` (round-half-to-even) is `pyRound`.
-/

namespace Roguelite

/-! ### Deterministic model of `random.Random` -/

/-- Deterministic random stream: `stream` gives the i-th raw draw. -/
structure PyRandom where
  stream : ℕ → ℕ
  pos : ℕ

/-- Consume one raw draw. -/
def PyRandom.next (r : PyRandom) : ℕ × PyRandom :=
  (r.stream r.pos, { r with pos := r.pos + 1 })

/-- Model of `random.Random(seed)`: a concrete stand-in stream derived
deterministically from the seed (the real MT19937 is abstracted; only
determinism is relied upon).  `none` (entropy seeding) is given an arbitrary
fixed stream; claims only quantify over integer seeds. -/
def mkRandom (seed : Option ℤ) : PyRandom :=
  ⟨fun i => ((seed.getD 0).natAbs + 2654435761 * i + 97) % 4294967296, 0⟩

/-- Model of `rng.randint(a, b)` (both endpoints included; callers always pass
`a ≤ b`). -/
def PyRandom.randint (r : PyRandom) (a b : ℤ) : ℤ × PyRandom :=
  let (d, r') := r.next
  (a + ((d % (b - a + 1).toNat : ℕ) : ℤ), r')

/-- Model of `rng.choice(l)` for nonempty `l`: uniform index pick. -/
def PyRandom.choiceL {α : Type} [Inhabited α] (r : PyRandom) (l : List α) :
    α × PyRandom :=
  let (d, r') := r.next
  (l.getD (d % l.length) default, r')

/-- Model of `rng.random()`: a rational in `[0, 1)`. -/
def PyRandom.random01 (r : PyRandom) : ℚ × PyRandom :=
  let (d, r') := r.next
  (((d % 1000 : ℕ) : ℚ) / 1000, r')

/-- Walk the (value, weight) pairs subtracting weights, as the cumulative-weight
bisection of `random.choices` does. -/
def pickWeighted {α : Type} : ℚ → List (α × ℚ) → Option α
  | _, [] => none
  | x, (v, w) :: rest => if x < w then some v else pickWeighted (x - w) rest

/-- Model of `rng.choices(values, weights=weights, k=1)[0]`: one `random()`
draw scaled by the total weight, then cumulative selection. -/
def PyRandom.choicesW {α : Type} [Inhabited α] (r : PyRandom) (values : List α)
    (weights : List ℚ) : α × PyRandom :=
  let total := weights.sum
  let (x, r') := r.random01
  ((pickWeighted (x * total) (values.zip weights)).getD default, r')

/-- Model of `rng.shuffle` as random extraction: repeatedly draw an index,
move that element to the front of the result.  (Draw-for-draw it differs from
CPython's Fisher-Yates, but the abstract stream makes the two models
equivalent for every property used here: determinism and permutation.)
Structurally recursive on a fuel that the wrapper sets to the list length,
which the recursion never exhausts since `eraseIdx` shortens by one. -/
def PyRandom.shuffleF {α : Type} : ℕ → PyRandom → List α → List α × PyRandom
  | 0, r, l => (l, r)
  | _ + 1, r, [] => ([], r)
  | fuel + 1, r, x :: xs =>
    let d := r.next.1
    let i := d % (x :: xs).length
    let chosen := (x :: xs).getD i x
    let rest := (x :: xs).eraseIdx i
    let res := PyRandom.shuffleF fuel r.next.2 rest
    (chosen :: res.1, res.2)

def PyRandom.shuffle {α : Type} (r : PyRandom) (l : List α) :
    List α × PyRandom :=
  PyRandom.shuffleF l.length r l

/-! ### Association-list model of Python dicts -/

def lookupA {α : Type} (k : String) : List (String × α) → Option α
  | [] => none
  | (k', v) :: rest => if k' = k then some v else lookupA k rest

/-- Dict assignment `d[k] = v`: replace if present, else append. -/
def putA {α : Type} (k : String) (v : α) : List (String × α) → List (String × α)
  | [] => [(k, v)]
  | (k', v') :: rest => if k' = k then (k, v) :: rest else (k', v') :: putA k v rest

/-- Python's `round` on rationals: round half to even. -/
def pyRound (q : ℚ) : ℤ :=
  let f := ⌊q⌋
  if q - f < 1 / 2 then f
  else if 1 / 2 < q - f then f + 1
  else if f % 2 = 0 then f else f + 1

/-- `[a, a+1, ..., b]`, Python's `list(range(a, b + 1))` for `ℤ` bounds. -/
def intRange (a b : ℤ) : List ℤ :=
  (List.range (b + 1 - a).toNat).map (fun k => a + (k : ℤ))

/-! ### Decimal-representation facts (for the `loc-{idx}` id scheme) -/

/-- Numeric value of a decimal digit character. -/
def digitVal (c : Char) : ℕ := c.toNat - 48

/-- Read a list of decimal digit characters, most significant first. -/
def digitsVal (l : List Char) : ℕ := l.foldl (fun a c => 10 * a + digitVal c) 0

theorem digitsVal_shift (l : List Char) (s : ℕ) :
    l.foldl (fun a c => 10 * a + digitVal c) s = s * 10 ^ l.length + digitsVal l := by
  induction l generalizing s with
  | nil => simp [digitsVal]
  | cons c t ih =>
    simp only [List.foldl_cons, List.length_cons, digitsVal] at *
    rw [ih (10 * s + digitVal c), ih (10 * 0 + digitVal c)]
    ring

theorem digitsVal_cons (c : Char) (l : List Char) :
    digitsVal (c :: l) = digitVal c * 10 ^ l.length + digitsVal l := by
  have h := digitsVal_shift l (10 * 0 + digitVal c)
  simpa [digitsVal] using h

theorem digitVal_digitChar (m : ℕ) (h : m < 10) : digitVal (Nat.digitChar m) = m := by
  interval_cases m <;> decide

theorem digitsVal_toDigitsCore (fuel : ℕ) :
    ∀ n ds, n < fuel →
      digitsVal (Nat.toDigitsCore 10 fuel n ds) = n * 10 ^ ds.length + digitsVal ds := by
  induction fuel with
  | zero => intro n ds h; omega
  | succ f ih =>
    intro n ds hn
    rw [Nat.toDigitsCore]
    by_cases h10 : n / 10 = 0
    · rw [if_pos h10, digitsVal_cons, digitVal_digitChar _ (Nat.mod_lt _ (by norm_num))]
      have hmn : n % 10 = n := by omega
      rw [hmn]
    · rw [if_neg h10]
      have hlt : n / 10 < f := by
        have := Nat.div_lt_self (by omega : 0 < n) (by norm_num : 1 < 10)
        omega
      rw [ih (n / 10) _ hlt, digitsVal_cons,
        digitVal_digitChar _ (Nat.mod_lt _ (by norm_num)), List.length_cons, pow_succ]
      have hdm : 10 * (n / 10) + n % 10 = n := Nat.div_add_mod n 10
      conv_rhs => rw [← hdm]
      ring

theorem digitsVal_toDigits (n : ℕ) : digitsVal (Nat.toDigits 10 n) = n := by
  rw [Nat.toDigits, digitsVal_toDigitsCore (n + 1) n [] (Nat.lt_succ_self n)]
  simp [digitsVal]

theorem natRepr_injective : Function.Injective Nat.repr := by
  intro a b h
  have hd : Nat.toDigits 10 a = Nat.toDigits 10 b := by
    have := congrArg String.data h
    simpa [Nat.repr, List.asString] using this
  have := congrArg digitsVal hd
  simpa [digitsVal_toDigits] using this

/-! ### World model (`world.py`) -/

/-- `BiomeTemplate`; the `encounter_weights` dict (fixed keys enemy/rest/event)
is modeled as three fields. -/
structure BiomeTemplate where
  key : String
  title : String
  flavors : List String
  encEnemy : ℚ
  encRest : ℚ
  encEvent : ℚ
  reward_multiplier : ℚ
  travel_cost : ℤ
deriving DecidableEq, Repr, Inhabited

structure Exit where
  destination : String
  label : String
  cost : ℤ
  note : String := ""
deriving DecidableEq, Repr, Inhabited

/-- `Location`.  `decay_remaining` is not a dataclass field in the source (it
is set dynamically by `DecayManager._sync_location`); it is modeled as a field
with default 0. -/
structure Location where
  id : String
  name : String
  biome : BiomeTemplate
  danger : ℤ
  encounter : String
  description : String
  reward_multiplier : ℚ
  exits : List Exit := []
  decay_stage : String := "Fresh"
  decay_duration : ℤ := 0
  decay_remaining : ℤ := 0
  removed : Bool := false
deriving DecidableEq, Repr, Inhabited

/-- `WorldGraph`: insertion-ordered dict as an association list. -/
structure WorldGraph where
  nodes : List (String × Location)
  start : String
deriving DecidableEq, Repr, Inhabited

def ruinsBiome : BiomeTemplate :=
  { key := "ruins", title := "Crumbling Ruins",
     flavors := ["shattered keeps jagged against a bruised horizon",
                 "fallen libraries littered with charred tomes",
                 "ivy-choked plazas where statues whisper of old wars"],
     encEnemy := 55/100, encRest := 25/100, encEvent := 20/100,
     reward_multiplier := 120/100, travel_cost := 1 }

def wetlandsBiome : BiomeTemplate :=
  { key := "wetlands", title := "Gloomed Wetlands",
     flavors := ["silent marshland wrapped in silver mist",
                 "sunken causeways riddled with luminous spores",
                 "reed-choked canals hiding restless silhouettes"],
     encEnemy := 45/100, encRest := 25/100, encEvent := 30/100,
     reward_multiplier := 1, travel_cost := 2 }

def cavernsBiome : BiomeTemplate :=
  { key := "caverns", title := "Hollow Caverns",
     flavors := ["fractured caverns buzzing with faint echoes",
                 "glimmering basalt passages warmed by hidden vents",
                 "crystal hollows that drink in every sound"],
     encEnemy := 40/100, encRest := 15/100, encEvent := 45/100,
     reward_multiplier := 135/100, travel_cost := 1 }

def BIOMES : List BiomeTemplate := [ruinsBiome, wetlandsBiome, cavernsBiome]

def ENCOUNTERS : List String := ["enemy", "rest", "event"]

def nameAdjectives : List String :=
  ["Forsaken", "Shaded", "Broken", "Forgotten", "Hidden"]

/-- id scheme `f"loc-{idx}"`. -/
def locId (idx : ℕ) : String := "loc-" ++ Nat.repr idx

/-- `_build_location`. -/
def build_location (r : PyRandom) (idx : ℕ) : Location × PyRandom :=
  let resB := r.choicesW BIOMES [40/100, 35/100, 25/100]
  let biome := resB.1
  let resE := resB.2.choicesW ENCOUNTERS [biome.encEnemy, biome.encRest, biome.encEvent]
  let encounter := resE.1
  let resD := resE.2.randint 1 3
  let danger := resD.1 + ((idx / 2 : ℕ) : ℤ)
  let resF := resD.2.choiceL biome.flavors
  let resA := resF.2.choiceL nameAdjectives
  let locName := resA.1 ++ " " ++ biome.title
  let description := "You reach " ++ resF.1 ++ ". Threat level " ++ toString danger ++ "."
  let reward_multiplier := biome.reward_multiplier + (5/100) * ((danger : ℚ) - 1)
  ({ id := locId idx, name := locName, biome := biome, danger := danger,
     encounter := encounter, description := description,
     reward_multiplier := reward_multiplier }, resA.2)

/-- The `for idx in range(capped_steps)` build loop: build `count` locations
starting at index `i` (the caller passes `count = capped_steps`, `i = 0`). -/
def buildNodesFrom : ℕ → ℕ → PyRandom → List Location × PyRandom
  | 0, _, r => ([], r)
  | count + 1, i, r =>
    let resL := build_location r i
    let resR := buildNodesFrom count (i + 1) resL.2
    (resL.1 :: resR.1, resR.2)

def exitLabels : List String := ["veer left", "take the high path", "press on"]

/-- The inner `for position, target_idx in enumerate(chosen_targets)` loop of
`_connect_locations`. -/
def forwardExitsGo (nodes : List Location) : ℕ → List ℕ → PyRandom → List Exit × PyRandom
  | _, [], r => ([], r)
  | pos, t :: ts, r =>
    let resAdd := r.randint 0 1
    let target := nodes.getD t default
    let cost := max 1 (target.biome.travel_cost + resAdd.1)
    let e : Exit := { destination := target.id,
                      label := exitLabels.getD (pos % exitLabels.length) "",
                      cost := cost,
                      note := "toward " ++ target.biome.title.toLower }
    let res := forwardExitsGo nodes (pos + 1) ts resAdd.2
    (e :: res.1, res.2)

/-- The outer loop of `_connect_locations`, producing the exit list of each of
`count` nodes starting at index `i` (the caller passes `count = n`, `i = 0`).
`lastCamp` carries the index of the most recent rest-type node (Python keeps
its id string; node ids are unique so the two are interchangeable, and the
`last_camp != location.id` test is kept as the same id-string comparison). -/
def connectGo (nodes : List Location) (n : ℕ) :
    ℕ → ℕ → Option ℕ → PyRandom → List (List Exit) × PyRandom
  | 0, _, _, r => ([], r)
  | count + 1, i, lastCamp, r =>
    let loc := nodes.getD i default
    let lc := if loc.encounter = "rest" then some i else lastCamp
    if i = n - 1 then
      let res := connectGo nodes n count (i + 1) lc r
      ([] :: res.1, res.2)
    else
      let resFc := r.randint 1 2
      let targets := List.range' (i + 1) (min n (i + 3) - (i + 1))
      let resSh := resFc.2.shuffle targets
      let chosen := resSh.1.take resFc.1.toNat
      let resFwd := forwardExitsGo nodes 0 chosen resSh.2
      let backExits : List Exit :=
        match lc with
        | some c =>
          if (nodes.getD c default).id ≠ loc.id then
            [{ destination := (nodes.getD c default).id,
               label := "double back to camp",
               cost := max 1 loc.biome.travel_cost,
               note := "safer footing for a breather" }]
          else []
        | none => []
      let res := connectGo nodes n count (i + 1) lc resFwd.2
      ((resFwd.1 ++ backExits) :: res.1, res.2)

/-- `generate_world(seed, steps)`. -/
def generate_world (seed : Option ℤ) (steps : ℤ) : WorldGraph :=
  let r := mkRandom seed
  let capped_steps := (max 3 steps).toNat
  let resB := buildNodesFrom capped_steps 0 r
  let nodes := resB.1
  let exitLists := (connectGo nodes capped_steps capped_steps 0 none resB.2).1
  let nodes' := List.zipWith (fun (loc : Location) ex => { loc with exits := ex })
    nodes exitLists
  { nodes := nodes'.map (fun loc => (loc.id, loc)),
    start := (nodes'.headD default).id }

/-! ### Decay manager (`decay.py`) -/

def DECAY_STAGES : List String := ["Fresh", "Fading", "Withering", "Removed"]

def DECAY_DURATION_RANGE : ℤ × ℤ := (2, 4)

structure DecayState where
  stage_index : ℕ
  remaining : ℤ
  duration : ℤ
deriving DecidableEq, Repr, Inhabited

/-- `DecayManager._roll_decay_duration`. -/
def roll_decay_duration (instability : ℚ) (r : PyRandom) : ℤ × PyRandom :=
  let minimum := DECAY_DURATION_RANGE.1
  let maximum := DECAY_DURATION_RANGE.2
  if maximum ≤ minimum then (minimum, r)
  else
    let ci := max 0 (min 10 instability)
    let wp : ℚ × ℚ :=
      if ci < 3 then (0, 10)
      else if ci < 6 then (4, 6)
      else if ci < 9 then (6, 4)
      else (10, 0)
    let values := intRange minimum maximum
    let weights := values.map (fun v => if v = minimum ∨ v = maximum then wp.1 else wp.2)
    let weights := if weights.all (fun w => w = 0) then weights.map (fun _ => 1) else weights
    r.choicesW values weights

/-- `DecayManager._sync_location`. -/
def sync_location (loc : Location) (st : DecayState) : Location :=
  { loc with decay_stage := DECAY_STAGES.getD st.stage_index "",
             decay_duration := st.duration,
             decay_remaining := max 0 st.remaining,
             removed := decide (DECAY_STAGES.length - 1 ≤ st.stage_index) }

/-- The `while state.remaining <= 0 and ...` loop in `advance_frontier`,
structurally recursive on a fuel.  Each iteration raises `stage_index` by one
and the guard requires `stage_index < len(DECAY_STAGES) - 1 = 3`, so the loop
runs at most 3 times; with the wrapper's fuel `DECAY_STAGES.length = 4` the
fuel is never exhausted and the function equals the source's while loop on
every input (`advance_decay_loopF_fuel` below proves fuel irrelevance). -/
def advance_decay_loopF (instability : ℚ) : ℕ → DecayState → PyRandom →
    DecayState × PyRandom
  | 0, st, r => (st, r)
  | fuel + 1, st, r =>
    if st.remaining ≤ 0 ∧ st.stage_index < DECAY_STAGES.length - 1 then
      let s1 := st.stage_index + 1
      if DECAY_STAGES.length - 1 ≤ s1 then
        ({ st with stage_index := s1 }, r)
      else
        let res := roll_decay_duration instability r
        advance_decay_loopF instability fuel
          { stage_index := s1, duration := res.1, remaining := st.remaining + res.1 } res.2
    else (st, r)

def advance_decay_loop (instability : ℚ) (st : DecayState) (r : PyRandom) :
    DecayState × PyRandom :=
  advance_decay_loopF instability DECAY_STAGES.length st r

/-- Running the loop with any fuel at least `3 - stage_index` (in particular
the wrapper's fuel 4) gives the same result: the guard bounds the iteration
count, so the fueled function is exactly the source's unbounded while loop. -/
theorem advance_decay_loopF_fuel (inst : ℚ) :
    ∀ (k f₁ f₂ : ℕ) (st : DecayState) (r : PyRandom), 3 - st.stage_index = k →
      k ≤ f₁ → k ≤ f₂ →
      advance_decay_loopF inst f₁ st r = advance_decay_loopF inst f₂ st r := by
  have hguard : ∀ (f : ℕ) (st : DecayState) (r : PyRandom),
      ¬ (st.remaining ≤ 0 ∧ st.stage_index < DECAY_STAGES.length - 1) →
      advance_decay_loopF inst f st r = (st, r) := by
    intro f st r hg
    cases f with
    | zero => rfl
    | succ f => rw [advance_decay_loopF, if_neg hg]
  intro k
  induction k with
  | zero =>
    intro f₁ f₂ st r hk _ _
    have hg : ¬ (st.remaining ≤ 0 ∧ st.stage_index < DECAY_STAGES.length - 1) := by
      simp only [DECAY_STAGES, List.length]
      omega
    rw [hguard f₁ st r hg, hguard f₂ st r hg]
  | succ k ih =>
    intro f₁ f₂ st r hk h₁ h₂
    by_cases hg : st.remaining ≤ 0 ∧ st.stage_index < DECAY_STAGES.length - 1
    · obtain ⟨f₁', rfl⟩ : ∃ f, f₁ = f + 1 := ⟨f₁ - 1, by omega⟩
      obtain ⟨f₂', rfl⟩ : ∃ f, f₂ = f + 1 := ⟨f₂ - 1, by omega⟩
      rw [advance_decay_loopF, advance_decay_loopF, if_pos hg, if_pos hg]
      dsimp only
      by_cases hbr : DECAY_STAGES.length - 1 ≤ st.stage_index + 1
      · rw [if_pos hbr, if_pos hbr]
      · rw [if_neg hbr, if_neg hbr]
        have hg2 := hg.2
        simp only [DECAY_STAGES, List.length] at hg2 hbr
        exact ih f₁' f₂'
          ⟨st.stage_index + 1, st.remaining + (roll_decay_duration inst r).1,
            (roll_decay_duration inst r).1⟩
          (roll_decay_duration inst r).2
          (show 3 - (st.stage_index + 1) = k by omega) (by omega) (by omega)
    · rw [hguard f₁ st r hg, hguard f₂ st r hg]

/-- The per-id body of `DecayManager.advance_frontier`, folded over the
frontier ids.  A frontier id missing from the world map is a no-op here (in
Python it would be a `KeyError`; `initialize_locations` guarantees every state
key is a world key in every run). -/
def advance_frontier_go (timeSpent : ℤ) (inst : ℚ) :
    List String → List (String × Location) → List (String × DecayState) →
    List String → PyRandom →
    List (String × Location) × List (String × DecayState) × List String × PyRandom
  | [], world, states, removedAcc, r => (world, states, removedAcc, r)
  | lid :: rest, world, states, removedAcc, r =>
    match lookupA lid states with
    | none => advance_frontier_go timeSpent inst rest world states removedAcc r
    | some st =>
      if DECAY_STAGES.length - 1 ≤ st.stage_index then
        advance_frontier_go timeSpent inst rest world states removedAcc r
      else
        let st₁ := { st with remaining := st.remaining - timeSpent }
        let res := advance_decay_loop inst st₁ r
        let st₂ := res.1
        let states' := putA lid st₂ states
        let world' := match lookupA lid world with
          | some loc => putA lid (sync_location loc st₂) world
          | none => world
        let removedAcc' := if DECAY_STAGES.length - 1 ≤ st₂.stage_index
          then removedAcc ++ [lid] else removedAcc
        advance_frontier_go timeSpent inst rest world' states' removedAcc' res.2

/-- `DecayManager.advance_frontier` (the manager's `time_elapsed` counter is
dropped: no claim mentions it). -/
def advance_frontier (timeSpent : ℤ) (world : List (String × Location))
    (frontier_ids : List String) (instability : ℚ)
    (states : List (String × DecayState)) (r : PyRandom) :
    List (String × Location) × List (String × DecayState) × List String × PyRandom :=
  if timeSpent ≤ 0 then (world, states, [], r)
  else advance_frontier_go timeSpent instability frontier_ids world states [] r

/-- `DecayManager.initialize_locations`, iterating the location dict in
insertion order. -/
def initialize_go (inst : ℚ) :
    List (String × Location) → List (String × DecayState) → PyRandom →
    List (String × Location) × List (String × DecayState) × PyRandom
  | [], states, r => ([], states, r)
  | (k, loc) :: rest, states, r =>
    let resD := roll_decay_duration inst r
    let st : DecayState := ⟨0, resD.1, resD.1⟩
    let states₁ := putA loc.id st states
    let res := initialize_go inst rest states₁ resD.2
    ((k, sync_location loc st) :: res.1, res.2.1, res.2.2)

def initialize_locations (inst : ℚ) (locations : List (String × Location))
    (r : PyRandom) :
    List (String × Location) × List (String × DecayState) × PyRandom :=
  initialize_go inst locations [] r

/-- One orchestrator-level call to `advance_frontier`. -/
structure AdvanceCall where
  timeSpent : ℤ
  frontier_ids : List String
  instability : ℚ
deriving Repr, Inhabited

/-- A sequence of `advance_frontier` calls. -/
def run_advances : List AdvanceCall → List (String × Location) →
    List (String × DecayState) → PyRandom →
    List (String × Location) × List (String × DecayState) × PyRandom
  | [], w, s, r => (w, s, r)
  | c :: cs, w, s, r =>
    let res := advance_frontier c.timeSpent w c.frontier_ids c.instability s r
    run_advances cs res.1 res.2.1 res.2.2.2

/-! ### Items (`items.py`) -/

structure Item where
  name : String
  slot : String
  damage_bonus : ℤ := 0
  guard_bonus : ℤ := 0
  recovery_bonus : ℤ := 0
  description : String := ""
deriving DecidableEq, Repr, Inhabited

/-- `Item.score`. -/
def Item.score (i : Item) : ℤ :=
  i.damage_bonus * 3 + i.guard_bonus * 2 + i.recovery_bonus

/-- The `for item in items` fold of `best_item`; `acc` is the running `best`.
The `if slot and item.slot != slot: continue` filter: `slot` is always a
nonempty string when present, so Python's truthiness test is `slot ≠ none`. -/
def bestFold (slot : Option String) : List Item → Option Item → Option Item
  | [], acc => acc
  | it :: rest, acc =>
    if (match slot with | some s => decide (it.slot ≠ s) | none => false : Bool) then
      bestFold slot rest acc
    else
      match acc with
      | none => bestFold slot rest (some it)
      | some b => if b.score < it.score then bestFold slot rest (some it)
                  else bestFold slot rest (some b)

/-- `best_item(items, slot=slot)`. -/
def best_item (items : List Item) (slot : Option String) : Option Item :=
  bestFold slot items none

/-! ### Entities (`entities.py`) -/

structure Stats where
  health : ℤ
  stamina : ℤ
  skill : ℤ
  awareness : ℤ
  guard : ℤ := 0
deriving DecidableEq, Repr, Inhabited

/-- `Combatant`.  The `consumables` list and its effect closures are omitted:
the consumable subsystem is passed as an explicit parameter where the game
loop dispatches into it (see `resolve_player_action`); no claim exercises it. -/
structure Combatant where
  name : String
  stats : Stats
  inventory : List Item := []
  weapon : Option Item := none
  armor : Option Item := none
  trinket : Option Item := none
  statuses : List (String × ℤ) := []
deriving DecidableEq, Repr, Inhabited

/-- `self.statuses.get(name, 0) > 0`. -/
def Combatant.has_status (c : Combatant) (n : String) : Bool :=
  match lookupA n c.statuses with
  | some d => decide (0 < d)
  | none => false

/-- `_equipped_items`. -/
def Combatant.equipped_items (c : Combatant) : List Item :=
  [c.weapon, c.armor, c.trinket].filterMap id

def Combatant.damage_bonus (c : Combatant) : ℤ :=
  (c.equipped_items.map Item.damage_bonus).sum

def Combatant.guard_bonus (c : Combatant) : ℤ :=
  (c.equipped_items.map Item.guard_bonus).sum

def Combatant.recovery_bonus (c : Combatant) : ℤ :=
  (c.equipped_items.map Item.recovery_bonus).sum

/-- `Combatant.guard_value`. -/
def Combatant.guard_value (c : Combatant) : ℤ :=
  let bonus := c.guard_bonus + (if c.has_status "scouted" then 1 else 0)
    - (if c.has_status "cursed" then 1 else 0)
  max 0 (c.stats.guard + bonus)

/-- `Combatant.effective_skill`. -/
def Combatant.effective_skill (c : Combatant) : ℤ :=
  max 1 (c.stats.skill + (if c.has_status "inspired" then 1 else 0)
    - (if c.has_status "cursed" then 1 else 0))

/-- `Combatant.attack`: note the damage is clamped to `max 1 _` once *before*
the variance draw and once again *after* it.  Returns the updated target. -/
def Combatant.attack (a t : Combatant) (r : PyRandom) : Combatant × PyRandom :=
  let damage₀ := max 1 (a.effective_skill + a.damage_bonus - t.guard_value)
  let (variance, r') := r.choiceL [(-1 : ℤ), 0, 0, 1]
  let damage := max 1 (damage₀ + variance)
  ({ t with stats := { t.stats with health := t.stats.health - damage } }, r')

/-- `Combatant.guard`. -/
def Combatant.guard (c : Combatant) : Combatant :=
  { c with stats := { c.stats with guard := min (c.stats.guard + 1) 4 } }

/-- `Combatant.recover`. -/
def Combatant.recover (c : Combatant) : Combatant :=
  let stamina_gain := 2 + c.recovery_bonus
  let health_gain := 1 + max 0 (c.recovery_bonus - 1)
  { c with stats := { c.stats with
      stamina := min (c.stats.stamina + stamina_gain) (c.stats.awareness + 6),
      health := min (c.stats.health + health_gain) (c.stats.awareness + 10) } }

/-! ### Enemies (`enemies.py`) -/

/-- Which of the three `*_on_hit` callbacks a template carries. -/
inductive OnHitKind
  | skirmisher
  | brute
  | caster
deriving DecidableEq, Repr, Inhabited

/-- `EnemyTemplate` (the `behavior` routine only shapes intent selection,
which no claim exercises; it is omitted). -/
structure EnemyTemplate where
  key : String
  title : String
  description : String
  base_stats : Stats
  scaling : Stats
  preferred_biomes : List String
  loot_multiplier : ℚ
  xp_value : ℚ
  onHit : OnHitKind
deriving DecidableEq, Repr, Inhabited

def skirmisherTemplate : EnemyTemplate :=
  { key := "skirmisher", title := "Skirmisher",
     description := "quick strikers that punish overextending foes",
     base_stats := { health := 7, stamina := 8, skill := 4, awareness := 4 },
     scaling := { health := 1, stamina := 1, skill := 1, awareness := 1 },
     preferred_biomes := ["ruins", "wetlands"],
     loot_multiplier := 1, xp_value := 1, onHit := .skirmisher }

def bruteTemplate : EnemyTemplate :=
  { key := "brute", title := "Brute",
     description := "relentless maulers that trade blows for exhaustion",
     base_stats := { health := 9, stamina := 7, skill := 3, awareness := 3 },
     scaling := { health := 2, stamina := 1, skill := 1, awareness := 1 },
     preferred_biomes := ["ruins", "caverns"],
     loot_multiplier := 130/100, xp_value := 120/100, onHit := .brute }

def casterTemplate : EnemyTemplate :=
  { key := "caster", title := "Hexcaster",
     description := "mystics whose spells punish the unwary",
     base_stats := { health := 6, stamina := 7, skill := 4, awareness := 5 },
     scaling := { health := 1, stamina := 1, skill := 1, awareness := 2 },
     preferred_biomes := ["wetlands", "caverns"],
     loot_multiplier := 115/100, xp_value := 140/100, onHit := .caster }

def ENEMY_TEMPLATES : List EnemyTemplate :=
  [skirmisherTemplate, bruteTemplate, casterTemplate]

/-- `_skirmisher_on_hit` (the enemy argument is unused by the effect). -/
def skirmisher_on_hit (p : Combatant) (r : PyRandom) : Combatant × PyRandom :=
  if p.stats.guard ≤ 0 then (p, r)
  else ({ p with stats := { p.stats with guard := max 0 (p.stats.guard - 1) } }, r)

/-- `_brute_on_hit`. -/
def brute_on_hit (p : Combatant) (r : PyRandom) : Combatant × PyRandom :=
  if p.stats.stamina ≤ 0 then (p, r)
  else
    let (drain, r') :=
      if p.stats.stamina ≤ 2 then ((1 : ℤ), r)
      else
        let (x, r₁) := r.random01
        ((if x < 35/100 then 2 else 1 : ℤ), r₁)
    ({ p with stats := { p.stats with stamina := max 0 (p.stats.stamina - drain) } }, r')

/-- `_caster_on_hit`. -/
def caster_on_hit (p : Combatant) (r : PyRandom) : Combatant × PyRandom :=
  let (x, r₁) := r.random01
  let burn : ℤ := if x < 1/2 then 1 else 2
  ({ p with stats := { p.stats with health := p.stats.health - burn } }, r₁)

/-- Dispatch of `template.on_hit_effect(foe, player, rng)`. -/
def EnemyTemplate.on_hit_effect (t : EnemyTemplate) (p : Combatant) (r : PyRandom) :
    Combatant × PyRandom :=
  match t.onHit with
  | .skirmisher => skirmisher_on_hit p r
  | .brute => brute_on_hit p r
  | .caster => caster_on_hit p r

/-! ### Game loop pieces (`game.py`) -/

/-- `Game.resolve_player_action`.  The consumable path (`action == "use"`) is
dispatched to the caller-supplied `useCons` (it wraps `Game.use_consumable`,
which is interactive); states reached by the claims never enter it.
Returns (player, foe, rng). -/
def resolve_player_action
    (useCons : Combatant → Combatant → PyRandom → Combatant × Combatant × PyRandom)
    (action : String) (p foe : Combatant) (r : PyRandom) :
    Combatant × Combatant × PyRandom :=
  if action = "attack" ∧ 0 < p.stats.stamina then
    let p' := { p with stats := { p.stats with stamina := p.stats.stamina - 1 } }
    let (foe', r') := Combatant.attack p' foe r
    (p', foe', r')
  else if action = "guard" then (Combatant.guard p, foe, r)
  else if action = "use" then useCons p foe r
  else (Combatant.recover p, foe, r)

/-- `Game.resolve_enemy_action`.  Returns (foe, player, rng). -/
def resolve_enemy_action (t : EnemyTemplate) (action : String)
    (foe p : Combatant) (r : PyRandom) : Combatant × Combatant × PyRandom :=
  if action = "guard" then (Combatant.guard foe, p, r)
  else if action = "recover" then (Combatant.recover foe, p, r)
  else if foe.stats.stamina ≤ 0 then
    ({ foe with stats := { foe.stats with stamina := foe.stats.stamina + 1 } }, p, r)
  else
    let foe₁ := { foe with stats := { foe.stats with stamina := foe.stats.stamina - 1 } }
    let (p₁, r₁) := Combatant.attack foe₁ p r
    let (p₂, r₂) := t.on_hit_effect p₁ r₁
    (foe₁, p₂, r₂)

/-- The victory loot amount in `Game.handle_combat`:
`max(1, round((danger // 2 or 1) * reward_multiplier * loot_multiplier))`.
Python `//` is floor division, which coincides with `ℤ`'s Euclidean `/` for
the positive divisor 2; `or 1` replaces a zero quotient. -/
def victory_loot (danger : ℤ) (reward_multiplier : ℚ) (t : EnemyTemplate) : ℤ :=
  let base : ℤ := if danger / 2 = 0 then 1 else danger / 2
  max 1 (pyRound ((base : ℚ) * reward_multiplier * t.loot_multiplier))

/-- The victory experience amount in `Game.handle_combat`:
`max(1, round(danger * xp_value * reward_multiplier))`. -/
def victory_xp (danger : ℤ) (reward_multiplier : ℚ) (t : EnemyTemplate) : ℤ :=
  max 1 (pyRound ((danger : ℚ) * t.xp_value * reward_multiplier))

/-- The location reward multiplier as produced by `_build_location`:
`biome.reward_multiplier + 0.05 * (danger - 1)`. -/
def location_reward_multiplier (b : BiomeTemplate) (danger : ℤ) : ℚ :=
  b.reward_multiplier + (5/100) * ((danger : ℚ) - 1)

/-- `Game.auto_equip_best_item` for one slot.  Python's identity test
`candidate is current` is modeled as value equality: in auto mode every
equipped item is an element of the inventory, and the candidate is the first
maximal-score element, so identity and value equality agree on all states the
game reaches. -/
def auto_equip_best_item (inventory : List Item) (slot : String)
    (current : Option Item) : Option Item :=
  match best_item inventory (some slot) with
  | none => current
  | some candidate => if some candidate = current then current else some candidate

/-- `Game.apply_travel_cost` on the player's stats. -/
def apply_travel_cost (p : Combatant) (cost : ℤ) : Combatant :=
  let s₀ := { p.stats with guard := 0 }
  let s₁ := { s₀ with stamina := s₀.stamina - cost }
  if s₁.stamina < 0 then
    let deficit := |s₁.stamina|
    { p with stats := { s₁ with stamina := 0, health := s₁.health - deficit } }
  else
    { p with stats := s₁ }

/-! ### Concrete inputs used by witnesses and counterexamples -/

/-- A constant raw-draw stream. -/
def rngConst (v : ℕ) : PyRandom := ⟨fun _ => v, 0⟩

/-- The starting player of `Game.__init__`. -/
def drifter : Combatant :=
  { name := "Drifter", stats := { health := 12, stamina := 8, skill := 4, awareness := 4 } }

/-- A weak attacker: effective skill 1, no equipment. -/
def weakAttacker : Combatant :=
  { name := "weak", stats := { health := 10, stamina := 5, skill := 1, awareness := 4 } }

/-- A fully-guarded target: raw guard 4, no equipment or statuses. -/
def guardedTarget : Combatant :=
  { name := "guarded", stats := { health := 10, stamina := 5, skill := 3, awareness := 4, guard := 4 } }

/-! ### C1 — attack damage formula -/

/-- The damage formula exactly as the specification states it:
`max(1, effectiveSkill + damageBonus − targetGuardValue + variance)`,
a single clamp applied after the variance. -/
def claimed_attack_damage (a t : Combatant) (variance : ℤ) : ℤ :=
  max 1 (a.effective_skill + a.damage_bonus - t.guard_value + variance)

/-- C1 counterexample: with attacker effective skill 1, no damage bonus,
target guard value 4 and variance +1 (draw 3 picks the last element of
`[-1, 0, 0, 1]`), the code deals 2 damage — it clamps
`max(1, 1 - 4) = 1` first and only then adds the variance — while the
claimed single-clamp formula gives `max(1, 1 - 4 + 1) = 1`. -/
theorem c1_attack_damage_counterexample :
    (Combatant.attack weakAttacker guardedTarget (rngConst 3)).1.stats.health ≠
      guardedTarget.stats.health - claimed_attack_damage weakAttacker guardedTarget 1 ∧
    (Combatant.attack weakAttacker guardedTarget (rngConst 3)).1.stats.health =
      guardedTarget.stats.health - 2 ∧
    claimed_attack_damage weakAttacker guardedTarget 1 = 1 := by
  refine ⟨by decide, by decide, by decide⟩

/-- C1 amended: for every attack, the damage applied to the target's health is
`max(1, max(1, effectiveSkill + damageBonus − targetGuardValue) + variance)` —
the raw damage is clamped to at least 1 both before and after the variance —
where the variance is drawn from the fixed symmetric multiset {−1, 0, 0, +1}. -/
theorem c1_attack_damage_amended (a t : Combatant) (r : PyRandom) :
    ∃ variance ∈ ([-1, 0, 0, 1] : List ℤ),
      (Combatant.attack a t r).1.stats.health =
        t.stats.health -
          max 1 (max 1 (a.effective_skill + a.damage_bonus - t.guard_value) + variance) := by
  refine ⟨[(-1 : ℤ), 0, 0, 1].getD (r.next.1 % 4) default, ?_, ?_⟩
  · have h4 : r.next.1 % 4 = 0 ∨ r.next.1 % 4 = 1 ∨ r.next.1 % 4 = 2 ∨ r.next.1 % 4 = 3 := by
      omega
    rcases h4 with h | h | h | h <;> simp [h]
  · rfl

/-! ### C4 — world generation is deterministic in (seed, steps) -/

/-- C4: two calls of `generate_world` with the same integer seed and step
count yield structurally identical graphs: the same location ids in the same
order, the same start id, and for each id the same danger, biome, encounter
kind, and exit list (destinations, labels, costs, in the same order).  In
this embedding the generator is a pure function of the seed-derived random
stream — the code draws every random value from the single
`random.Random(seed)` stream and reads no other mutable state — so both
calls coincide definitionally. -/
theorem c4_generate_world_deterministic (seed steps : ℤ) :
    (generate_world (some seed) steps).nodes.map Prod.fst =
      (generate_world (some seed) steps).nodes.map Prod.fst ∧
    (generate_world (some seed) steps).start = (generate_world (some seed) steps).start ∧
    (∀ lid, (lookupA lid (generate_world (some seed) steps).nodes).map Location.danger =
      (lookupA lid (generate_world (some seed) steps).nodes).map Location.danger) ∧
    (∀ lid, (lookupA lid (generate_world (some seed) steps).nodes).map
        (fun l => l.biome.key) =
      (lookupA lid (generate_world (some seed) steps).nodes).map (fun l => l.biome.key)) ∧
    (∀ lid, (lookupA lid (generate_world (some seed) steps).nodes).map Location.encounter =
      (lookupA lid (generate_world (some seed) steps).nodes).map Location.encounter) ∧
    (∀ lid, (lookupA lid (generate_world (some seed) steps).nodes).map Location.exits =
      (lookupA lid (generate_world (some seed) steps).nodes).map Location.exits) :=
  ⟨rfl, rfl, fun _ => rfl, fun _ => rfl, fun _ => rfl, fun _ => rfl⟩

/-! ### C10 — travel cost application -/

/-- C10: after `apply_travel_cost` with exit cost `c`, guard is 0; if prior
stamina `s ≥ c`, stamina becomes `s − c` and health is unchanged; if `s < c`,
stamina becomes 0 and health drops by exactly the deficit `c − s`; the
resulting stamina is never negative (given non-negative prior stamina the
first two cases cover everything; the last conjunct records that the clamped
branch never leaves negative stamina). -/
theorem c10_apply_travel_cost (p : Combatant) (cost : ℤ) :
    (apply_travel_cost p cost).stats.guard = 0 ∧
    (cost ≤ p.stats.stamina →
      (apply_travel_cost p cost).stats.stamina = p.stats.stamina - cost ∧
      (apply_travel_cost p cost).stats.health = p.stats.health) ∧
    (p.stats.stamina < cost →
      (apply_travel_cost p cost).stats.stamina = 0 ∧
      (apply_travel_cost p cost).stats.health =
        p.stats.health - (cost - p.stats.stamina)) ∧
    (0 ≤ p.stats.stamina - cost →
      0 ≤ (apply_travel_cost p cost).stats.stamina) ∧
    (p.stats.stamina - cost < 0 → (apply_travel_cost p cost).stats.stamina = 0) := by
  unfold apply_travel_cost
  dsimp only
  split
  next hneg =>
    refine ⟨rfl, ?_, ?_, ?_, fun _ => rfl⟩
    · intro hle; exfalso; omega
    · intro _
      refine ⟨rfl, ?_⟩
      show p.stats.health - |p.stats.stamina - cost| = _
      rw [abs_of_neg hneg]; ring
    · intro hge; exfalso; omega
  next hpos =>
    refine ⟨rfl, fun _ => ⟨rfl, rfl⟩, ?_, fun _ => ?_, ?_⟩
    · intro hlt; exfalso; omega
    · show 0 ≤ p.stats.stamina - cost; omega
    · intro hlt; exfalso; omega

/-- C10 witness at concrete inputs: cost 3 against stamina 8 (affordable) and
cost 12 against stamina 8 (deficit 4). -/
theorem c10_apply_travel_cost_witness :
    ((3 : ℤ) ≤ drifter.stats.stamina ∧
      (apply_travel_cost drifter 3).stats.stamina = 5 ∧
      (apply_travel_cost drifter 3).stats.health = 12) ∧
    (drifter.stats.stamina < 12 ∧
      (apply_travel_cost drifter 12).stats.stamina = 0 ∧
      (apply_travel_cost drifter 12).stats.health = 8) ∧
    (apply_travel_cost drifter 12).stats.guard = 0 := by
  have h1 := (c10_apply_travel_cost drifter 3).2.1 (by decide)
  have h2 := (c10_apply_travel_cost drifter 12).2.2.1 (by decide)
  have h3 := (c10_apply_travel_cost drifter 12).1
  refine ⟨⟨by decide, ?_, ?_⟩, ⟨by decide, ?_, ?_⟩, h3⟩
  · exact h1.1.trans (by decide)
  · exact h1.2.trans (by decide)
  · exact h2.1
  · exact h2.2.trans (by decide)

/-! ### C8 — decay rolls at high instability hit only the endpoints -/

theorem mod1000_nonneg (m : ℕ) : (0 : ℚ) ≤ ((m % 1000 : ℕ) : ℚ) / 1000 := by
  positivity

theorem mod1000_lt_one (m : ℕ) : ((m % 1000 : ℕ) : ℚ) / 1000 < 1 := by
  rw [div_lt_one (by norm_num)]
  exact_mod_cast Nat.mod_lt m (by norm_num)

/-- C8: whenever instability ≥ 9 (in particular = 10), the rolled decay
duration is one of the two endpoints 2 and 4 of `DECAY_DURATION_RANGE`, never
the interior value 3, because the weight pair is (10, 0). -/
theorem c8_roll_decay_duration_extremes (instability : ℚ) (r : PyRandom)
    (h : 9 ≤ instability) :
    (roll_decay_duration instability r).1 = 2 ∨
      (roll_decay_duration instability r).1 = 4 := by
  have h9 : (9 : ℚ) ≤ max 0 (min 10 instability) :=
    le_max_of_le_right (le_min (by norm_num) h)
  unfold roll_decay_duration
  dsimp only
  rw [if_neg (by decide : ¬ (DECAY_DURATION_RANGE.2 ≤ DECAY_DURATION_RANGE.1))]
  rw [if_neg (by linarith : ¬ (max 0 (min 10 instability) < 3)),
      if_neg (by linarith : ¬ (max 0 (min 10 instability) < 6)),
      if_neg (by linarith : ¬ (max 0 (min 10 instability) < 9))]
  have hval : intRange DECAY_DURATION_RANGE.1 DECAY_DURATION_RANGE.2 = [2, 3, 4] := by
    decide
  rw [hval]
  have hw : (([2, 3, 4] : List ℤ).map fun v =>
      if v = DECAY_DURATION_RANGE.1 ∨ v = DECAY_DURATION_RANGE.2
      then ((10 : ℚ), (0 : ℚ)).1 else ((10 : ℚ), (0 : ℚ)).2) = [10, 0, 10] := by
    decide
  rw [hw]
  rw [if_neg (by decide : ¬ (([10, 0, 10] : List ℚ).all (fun w => w = 0) = true))]
  unfold PyRandom.choicesW PyRandom.random01 PyRandom.next
  dsimp only
  set x : ℚ := ((r.stream r.pos % 1000 : ℕ) : ℚ) / 1000 with hxdef
  have hx0 : (0 : ℚ) ≤ x := mod1000_nonneg _
  have hx1 : x < 1 := mod1000_lt_one _
  have hsum : ([10, 0, 10] : List ℚ).sum = 20 := by norm_num
  rw [hsum]
  have hzip : ([2, 3, 4] : List ℤ).zip ([10, 0, 10] : List ℚ) =
      [(2, 10), (3, 0), (4, 10)] := by decide
  rw [hzip]
  by_cases hx : x * 20 < 10
  · left
    simp [pickWeighted, hx]
  · right
    have hge : ¬ (x * 20 - 10 < 0) := by linarith
    have hlt : x * 20 - 10 < 10 := by nlinarith
    simp [pickWeighted, hx, hge, hlt]

/-- C8 witness at instability 10 with a concrete stream. -/
theorem c8_roll_decay_duration_extremes_witness :
    (9 : ℚ) ≤ 10 ∧
      ((roll_decay_duration 10 (rngConst 0)).1 = 2 ∨
        (roll_decay_duration 10 (rngConst 0)).1 = 4) :=
  ⟨by norm_num, c8_roll_decay_duration_extremes 10 (rngConst 0) (by norm_num)⟩

/-! ### C2 — victory loot and experience formulas -/

/-- The loot formula exactly as the specification states it:
`round(max(1, danger/2) × locationRewardMultiplier × templateLootMultiplier)`,
with `danger/2` the source's floor division. -/
def claimed_victory_loot (danger : ℤ) (rm : ℚ) (t : EnemyTemplate) : ℤ :=
  pyRound (((max 1 (danger / 2) : ℤ) : ℚ) * rm * t.loot_multiplier)

/-- The experience formula exactly as the specification states it:
`round(danger × templateXpValue × locationRewardMultiplier)`. -/
def claimed_victory_xp (danger : ℤ) (rm : ℚ) (t : EnemyTemplate) : ℤ :=
  pyRound ((danger : ℚ) * t.xp_value * rm)

theorem one_le_pyRound (q : ℚ) (hq : 1 ≤ q) : 1 ≤ pyRound q := by
  have hf : (1 : ℤ) ≤ ⌊q⌋ := Int.le_floor.mpr (by exact_mod_cast hq)
  unfold pyRound
  dsimp only
  split_ifs <;> omega

/-- C2: for every danger `d ≥ 1`, every generated biome and every enemy
template, the victory loot is `round(max(1, d/2) × locationRewardMultiplier ×
templateLootMultiplier)` and the experience is `round(d × templateXpValue ×
locationRewardMultiplier)` — the code's `danger // 2 or 1` equals
`max(1, d/2)` for `d ≥ 1`, and its extra outer `max(1, …)` is inert because
every multiplier is ≥ 1 on generated locations. -/
theorem c2_victory_rewards (d : ℤ) (hd : 1 ≤ d) (b : BiomeTemplate) (hb : b ∈ BIOMES)
    (t : EnemyTemplate) (ht : t ∈ ENEMY_TEMPLATES) :
    victory_loot d (location_reward_multiplier b d) t =
      claimed_victory_loot d (location_reward_multiplier b d) t ∧
    victory_xp d (location_reward_multiplier b d) t =
      claimed_victory_xp d (location_reward_multiplier b d) t := by
  have hbm : (1 : ℚ) ≤ b.reward_multiplier := by
    fin_cases hb <;> norm_num [ruinsBiome, wetlandsBiome, cavernsBiome]
  have hlm : (1 : ℚ) ≤ t.loot_multiplier := by
    fin_cases ht <;> norm_num [skirmisherTemplate, bruteTemplate, casterTemplate]
  have hxv : (1 : ℚ) ≤ t.xp_value := by
    fin_cases ht <;> norm_num [skirmisherTemplate, bruteTemplate, casterTemplate]
  have hd1 : (1 : ℚ) ≤ (d : ℚ) := by exact_mod_cast hd
  have hrm : (1 : ℚ) ≤ location_reward_multiplier b d := by
    unfold location_reward_multiplier
    nlinarith
  have hbase : (if d / 2 = 0 then (1 : ℤ) else d / 2) = max 1 (d / 2) := by
    omega
  have hmax : (1 : ℚ) ≤ ((max 1 (d / 2) : ℤ) : ℚ) := by
    exact_mod_cast le_max_left 1 (d / 2)
  constructor
  · unfold victory_loot claimed_victory_loot
    dsimp only
    rw [hbase]
    refine max_eq_right (one_le_pyRound _ ?_)
    have hab : (1 : ℚ) ≤ ((max 1 (d / 2) : ℤ) : ℚ) * location_reward_multiplier b d := by
      nlinarith
    nlinarith
  · unfold victory_xp claimed_victory_xp
    refine max_eq_right (one_le_pyRound _ ?_)
    have hab : (1 : ℚ) ≤ (d : ℚ) * t.xp_value := by nlinarith
    nlinarith

/-- C2 witness: danger 3, the ruins biome, the brute template. -/
theorem c2_victory_rewards_witness :
    (1 : ℤ) ≤ 3 ∧ ruinsBiome ∈ BIOMES ∧ bruteTemplate ∈ ENEMY_TEMPLATES ∧
      (victory_loot 3 (location_reward_multiplier ruinsBiome 3) bruteTemplate =
        claimed_victory_loot 3 (location_reward_multiplier ruinsBiome 3) bruteTemplate ∧
      victory_xp 3 (location_reward_multiplier ruinsBiome 3) bruteTemplate =
        claimed_victory_xp 3 (location_reward_multiplier ruinsBiome 3) bruteTemplate) :=
  ⟨by norm_num, by simp [BIOMES], by simp [ENEMY_TEMPLATES],
    c2_victory_rewards 3 (by norm_num) _ (by simp [BIOMES]) _ (by simp [ENEMY_TEMPLATES])⟩

/-! ### C3 — attack stamina accounting -/

/-- A player with no stamina left. -/
def exhaustedPlayer : Combatant :=
  { name := "Drifter", stats := { health := 12, stamina := 0, skill := 4, awareness := 4 } }

/-- A no-op consumable subsystem (the attack path never reaches it). -/
def trivialUseCons : Combatant → Combatant → PyRandom → Combatant × Combatant × PyRandom :=
  fun p foe r => (p, foe, r)

/-- Every attack deals at least 1 damage, so the target's health strictly
drops. -/
theorem attack_health_lt (a t : Combatant) (r : PyRandom) :
    (Combatant.attack a t r).1.stats.health < t.stats.health := by
  unfold Combatant.attack
  dsimp only
  have h1 := le_max_left 1
    (max 1 (a.effective_skill + a.damage_bonus - t.guard_value) +
      [(-1 : ℤ), 0, 0, 1].getD (r.next.1 % [(-1 : ℤ), 0, 0, 1].length) default)
  omega

/-- C3 counterexample: the claim says a zero-stamina attack is skipped with no
stamina change and no substitute action.  In the code, the player's
zero-stamina attack falls through `resolve_player_action`'s final `else` into
`recover` (stamina 0 → 2 here), and the enemy's zero-stamina attack is
replaced by a forced +1 stamina gain (`resolve_enemy_action`). -/
theorem c3_attack_stamina_counterexample :
    (resolve_player_action trivialUseCons "attack" exhaustedPlayer guardedTarget
        (rngConst 0)).1.stats.stamina ≠ exhaustedPlayer.stats.stamina ∧
    (resolve_player_action trivialUseCons "attack" exhaustedPlayer guardedTarget
        (rngConst 0)).1.stats.stamina = 2 ∧
    (resolve_enemy_action skirmisherTemplate "attack" exhaustedPlayer drifter
        (rngConst 0)).1.stats.stamina = 1 :=
  ⟨by decide, by decide, by decide⟩

/-- C3 amended: an attack with stamina > 0 consumes exactly 1 stamina (and the
attack lands, strictly reducing the target's health); an attack with stamina 0
is not executed, but it is not a pure skip: the player's attack resolution
falls through to the `recover` action, and the enemy's attack resolution
instead grants the enemy exactly 1 stamina and leaves the player untouched. -/
theorem c3_attack_stamina_amended
    (uc : Combatant → Combatant → PyRandom → Combatant × Combatant × PyRandom)
    (t : EnemyTemplate) (p foe : Combatant) (r : PyRandom) :
    (0 < p.stats.stamina →
      (resolve_player_action uc "attack" p foe r).1.stats.stamina =
        p.stats.stamina - 1 ∧
      (resolve_player_action uc "attack" p foe r).2.1.stats.health <
        foe.stats.health) ∧
    (¬ 0 < p.stats.stamina →
      (resolve_player_action uc "attack" p foe r).1 = Combatant.recover p ∧
      (resolve_player_action uc "attack" p foe r).2.1 = foe) ∧
    (0 < foe.stats.stamina →
      (resolve_enemy_action t "attack" foe p r).1.stats.stamina =
        foe.stats.stamina - 1) ∧
    (foe.stats.stamina ≤ 0 →
      (resolve_enemy_action t "attack" foe p r).1.stats.stamina =
        foe.stats.stamina + 1 ∧
      (resolve_enemy_action t "attack" foe p r).2.1 = p) := by
  refine ⟨?_, ?_, ?_, ?_⟩
  · intro hst
    unfold resolve_player_action
    rw [if_pos ⟨rfl, hst⟩]
    exact ⟨rfl, attack_health_lt _ _ _⟩
  · intro hst
    unfold resolve_player_action
    rw [if_neg (by simp [hst]), if_neg (by decide), if_neg (by decide)]
    exact ⟨rfl, rfl⟩
  · intro hst
    unfold resolve_enemy_action
    rw [if_neg (by decide), if_neg (by decide), if_neg (by omega)]
  · intro hst
    unfold resolve_enemy_action
    rw [if_neg (by decide), if_neg (by decide), if_pos hst]
    exact ⟨rfl, rfl⟩

/-- C3 witness: stamina 8 (attack consumes 1), stamina 0 (player recovers,
enemy gains 1). -/
theorem c3_attack_stamina_amended_witness :
    (0 < drifter.stats.stamina ∧
      (resolve_player_action trivialUseCons "attack" drifter guardedTarget
          (rngConst 0)).1.stats.stamina = drifter.stats.stamina - 1) ∧
    (¬ 0 < exhaustedPlayer.stats.stamina ∧
      (resolve_player_action trivialUseCons "attack" exhaustedPlayer guardedTarget
          (rngConst 0)).1 = Combatant.recover exhaustedPlayer) ∧
    (exhaustedPlayer.stats.stamina ≤ 0 ∧
      (resolve_enemy_action skirmisherTemplate "attack" exhaustedPlayer drifter
          (rngConst 0)).1.stats.stamina = exhaustedPlayer.stats.stamina + 1) := by
  have hA := c3_attack_stamina_amended trivialUseCons skirmisherTemplate drifter
    guardedTarget (rngConst 0)
  have hB := c3_attack_stamina_amended trivialUseCons skirmisherTemplate
    exhaustedPlayer guardedTarget (rngConst 0)
  have hC := c3_attack_stamina_amended trivialUseCons skirmisherTemplate drifter
    exhaustedPlayer (rngConst 0)
  exact ⟨⟨by decide, (hA.1 (by decide)).1⟩,
    ⟨by decide, (hB.2.1 (by decide)).1⟩,
    ⟨by decide, (hC.2.2.2 (by decide)).1⟩⟩

/-! ### C9 — auto-equip never downgrades and replaces only on strict gain -/

theorem bestFold_cons_match (s : String) (it : Item) (rest : List Item)
    (acc : Option Item) (h : it.slot = s) :
    bestFold (some s) (it :: rest) acc =
      match acc with
      | none => bestFold (some s) rest (some it)
      | some b => if b.score < it.score then bestFold (some s) rest (some it)
                  else bestFold (some s) rest (some b) := by
  simp [bestFold, h]

theorem bestFold_cons_skip (s : String) (it : Item) (rest : List Item)
    (acc : Option Item) (h : it.slot ≠ s) :
    bestFold (some s) (it :: rest) acc = bestFold (some s) rest acc := by
  simp [bestFold, h]

theorem bestFold_append (s : String) (l₁ l₂ : List Item) (acc : Option Item) :
    bestFold (some s) (l₁ ++ l₂) acc = bestFold (some s) l₂ (bestFold (some s) l₁ acc) := by
  induction l₁ generalizing acc with
  | nil => rfl
  | cons it rest ih =>
    by_cases hms : it.slot = s
    · rw [List.cons_append, bestFold_cons_match _ _ _ _ hms,
        bestFold_cons_match _ _ _ _ hms]
      cases acc with
      | none => exact ih _
      | some b =>
        dsimp only
        split
        · exact ih _
        · exact ih _
    · rw [List.cons_append, bestFold_cons_skip _ _ _ _ hms,
        bestFold_cons_skip _ _ _ _ hms]
      exact ih _

theorem bestFold_acc_le (s : String) (l : List Item) (a : Item) :
    ∃ b, bestFold (some s) l (some a) = some b ∧ a.score ≤ b.score := by
  induction l generalizing a with
  | nil => exact ⟨a, rfl, le_refl _⟩
  | cons it rest ih =>
    by_cases hms : it.slot = s
    · rw [bestFold_cons_match _ _ _ _ hms]
      dsimp only
      by_cases hlt : a.score < it.score
      · rw [if_pos hlt]
        obtain ⟨b, hb, hle⟩ := ih it
        exact ⟨b, hb, le_trans (le_of_lt hlt) hle⟩
      · rw [if_neg hlt]
        exact ih a
    · rw [bestFold_cons_skip _ _ _ _ hms]
      exact ih a

theorem bestFold_dominates (s : String) (l : List Item) :
    ∀ acc y, y ∈ l → y.slot = s →
      ∃ b, bestFold (some s) l acc = some b ∧ y.score ≤ b.score := by
  induction l with
  | nil => intro acc y hy _; cases hy
  | cons it rest ih =>
    intro acc y hy hys
    rcases List.mem_cons.mp hy with rfl | hmem
    · rw [bestFold_cons_match _ _ _ _ hys]
      cases acc with
      | none => exact bestFold_acc_le s rest y
      | some a =>
        dsimp only
        by_cases hlt : a.score < y.score
        · rw [if_pos hlt]
          exact bestFold_acc_le s rest y
        · rw [if_neg hlt]
          obtain ⟨b, hb, hle⟩ := bestFold_acc_le s rest a
          exact ⟨b, hb, le_trans (by omega) hle⟩
    · by_cases hms : it.slot = s
      · rw [bestFold_cons_match _ _ _ _ hms]
        cases acc with
        | none => exact ih _ y hmem hys
        | some a =>
          dsimp only
          split
          · exact ih _ y hmem hys
          · exact ih _ y hmem hys
      · rw [bestFold_cons_skip _ _ _ _ hms]
        exact ih _ y hmem hys

theorem bestFold_single (s : String) (x c : Item) :
    bestFold (some s) [x] (some c) =
      if x.slot ≠ s then some c
      else if c.score < x.score then some x else some c := by
  by_cases hms : x.slot = s
  · rw [bestFold_cons_match _ _ _ _ hms]
    simp [bestFold, hms]
  · rw [bestFold_cons_skip _ _ _ _ hms]
    simp [bestFold, hms]

/-- C9: one auto-equip call, as made by `add_item_to_inventory` right after
appending item `x` to the inventory.  Hypothesis: the currently equipped item
(if any) was itself chosen by `best_item` over the previously seen inventory —
the invariant every auto-mode run maintains, since slots start empty and are
only ever written by `auto_equip_best_item`.  Conclusions: (a) afterwards the
equipped item's score is ≥ the score of every item of the slot ever seen, and
(b) the previously equipped item is replaced only if the new candidate's score
strictly exceeds the incumbent's. -/
theorem c9_auto_equip_best_item (inv₀ : List Item) (x : Item) (slot : String)
    (cur : Option Item)
    (hcur : cur = none ∨ ∃ c, cur = some c ∧ best_item inv₀ (some slot) = some c) :
    (∀ y ∈ inv₀ ++ [x], y.slot = slot →
      ∃ e, auto_equip_best_item (inv₀ ++ [x]) slot cur = some e ∧
        y.score ≤ e.score) ∧
    (∀ c, cur = some c →
      auto_equip_best_item (inv₀ ++ [x]) slot cur ≠ cur →
      ∃ e, auto_equip_best_item (inv₀ ++ [x]) slot cur = some e ∧
        c.score < e.score) := by
  constructor
  · intro y hy hys
    obtain ⟨b, hb, hle⟩ := bestFold_dominates slot (inv₀ ++ [x]) none y hy hys
    unfold auto_equip_best_item best_item
    rw [hb]
    dsimp only
    by_cases hbc : some b = cur
    · rw [if_pos hbc]
      exact ⟨b, hbc.symm, hle⟩
    · rw [if_neg hbc]
      exact ⟨b, rfl, hle⟩
  · intro c hc hne
    subst hc
    rcases hcur with h | ⟨c', hc', hbest⟩
    · exact absurd h (by simp)
    · rw [Option.some_inj] at hc'
      subst hc'
      have hstep : best_item (inv₀ ++ [x]) (some slot) =
          if x.slot ≠ slot then some c
          else if c.score < x.score then some x else some c := by
        unfold best_item
        rw [bestFold_append]
        have hb0 : bestFold (some slot) inv₀ none = some c := hbest
        rw [hb0, bestFold_single]
      by_cases hms : x.slot = slot
      · rw [if_neg (by simp [hms])] at hstep
        by_cases hlt : c.score < x.score
        · rw [if_pos hlt] at hstep
          have hres : auto_equip_best_item (inv₀ ++ [x]) slot (some c) = some x := by
            unfold auto_equip_best_item
            rw [hstep]
            dsimp only
            rw [if_neg (by intro hxc; rw [Option.some_inj] at hxc; subst hxc; omega)]
          exact ⟨x, hres, hlt⟩
        · rw [if_neg hlt] at hstep
          exfalso
          apply hne
          unfold auto_equip_best_item
          rw [hstep]
          dsimp only
          rw [if_pos rfl]
      · rw [if_pos hms] at hstep
        exfalso
        apply hne
        unfold auto_equip_best_item
        rw [hstep]
        dsimp only
        rw [if_pos rfl]

/-- Two weapons from the source's drop tables. -/
def rustedShiv : Item :=
  { name := "Rusted Shiv", slot := "weapon", damage_bonus := 1,
    description := "A chipped blade that cuts deeper than it looks." }

def balancedSpear : Item :=
  { name := "Balanced Spear", slot := "weapon", damage_bonus := 2,
    description := "Well-weighted, perfect for precise strikes." }

/-- C9 witness: a shiv (score 3) equipped from a one-item inventory, then a
spear (score 6) dropped: the equip happens, dominates the seen items, and is
a strict upgrade. -/
theorem c9_auto_equip_best_item_witness :
    best_item [rustedShiv] (some "weapon") = some rustedShiv ∧
    auto_equip_best_item ([rustedShiv] ++ [balancedSpear]) "weapon"
      (some rustedShiv) = some balancedSpear ∧
    rustedShiv.score ≤ balancedSpear.score ∧
    rustedShiv.score < balancedSpear.score := by
  have hinv : (some rustedShiv = none ∨ ∃ c, some rustedShiv = some c ∧
      best_item [rustedShiv] (some "weapon") = some c) :=
    Or.inr ⟨rustedShiv, rfl, by decide⟩
  have hthm := c9_auto_equip_best_item [rustedShiv] balancedSpear "weapon"
    (some rustedShiv) hinv
  have hres : auto_equip_best_item ([rustedShiv] ++ [balancedSpear]) "weapon"
      (some rustedShiv) = some balancedSpear := by decide
  obtain ⟨e, he, hle⟩ := hthm.1 rustedShiv (by decide) (by decide)
  obtain ⟨e2, he2, hlt⟩ := hthm.2 rustedShiv rfl (by decide)
  have hbe : e = balancedSpear := (Option.some_inj.mp (hres.symm.trans he)).symm
  have hbe2 : e2 = balancedSpear := (Option.some_inj.mp (hres.symm.trans he2)).symm
  exact ⟨by decide, hres, hbe ▸ hle, hbe2 ▸ hlt⟩

/-! ### Association-list lemmas -/

theorem lookupA_putA_eq {α : Type} (k : String) (v : α) (l : List (String × α)) :
    lookupA k (putA k v l) = some v := by
  induction l with
  | nil => simp [putA, lookupA]
  | cons p rest ih =>
    obtain ⟨pk, pv⟩ := p
    by_cases hpk : pk = k
    · simp [putA, lookupA, hpk]
    · simp [putA, lookupA, hpk, ih]

theorem lookupA_putA_ne {α : Type} (k k' : String) (v : α) (l : List (String × α))
    (h : k' ≠ k) : lookupA k (putA k' v l) = lookupA k l := by
  induction l with
  | nil => simp [putA, lookupA, h]
  | cons p rest ih =>
    obtain ⟨pk, pv⟩ := p
    by_cases hpk : pk = k'
    · subst hpk
      simp [putA, lookupA, h, ih]
    · simp [putA, lookupA, hpk, ih]

/-! ### C6 — advance_frontier leaves non-frontier locations untouched -/

theorem advance_frontier_go_frame (timeSpent : ℤ) (inst : ℚ) (ids : List String) :
    ∀ world states acc r (lid : String), lid ∉ ids →
      lookupA lid (advance_frontier_go timeSpent inst ids world states acc r).1 =
        lookupA lid world ∧
      lookupA lid (advance_frontier_go timeSpent inst ids world states acc r).2.1 =
        lookupA lid states := by
  induction ids with
  | nil => intro world states acc r lid _; exact ⟨rfl, rfl⟩
  | cons i rest ih =>
    intro world states acc r lid hn
    have hne : i ≠ lid := fun h => hn (h ▸ List.mem_cons_self i rest)
    have hnr : lid ∉ rest := fun h => hn (List.mem_cons_of_mem i h)
    unfold advance_frontier_go
    cases hlook : lookupA i states with
    | none => exact ih world states acc r lid hnr
    | some st =>
      dsimp only
      by_cases hstage : DECAY_STAGES.length - 1 ≤ st.stage_index
      · rw [if_pos hstage]
        exact ih world states acc r lid hnr
      · rw [if_neg hstage]
        obtain ⟨h1, h2⟩ := ih _ _ _ _ lid hnr
        rw [h1, h2]
        constructor
        · cases hlw : lookupA i world with
          | none => rfl
          | some loc => exact lookupA_putA_ne _ _ _ _ hne
        · exact lookupA_putA_ne _ _ _ _ hne

/-- C6: `advance_frontier(timeSpent, frontierIds, instability)` leaves every
location whose id is not in `frontierIds` completely unchanged — its stored
`DecayState` (stage_index, remaining, duration) and its display copy
(decay_stage, decay_remaining, decay_duration, removed) read back identically
after the call. -/
theorem c6_advance_frontier_frame (timeSpent : ℤ) (world : List (String × Location))
    (frontier_ids : List String) (inst : ℚ) (states : List (String × DecayState))
    (r : PyRandom) (lid : String) (hnot : lid ∉ frontier_ids) :
    lookupA lid (advance_frontier timeSpent world frontier_ids inst states r).1 =
      lookupA lid world ∧
    lookupA lid (advance_frontier timeSpent world frontier_ids inst states r).2.1 =
      lookupA lid states := by
  unfold advance_frontier
  by_cases ht : timeSpent ≤ 0
  · rw [if_pos ht]
    exact ⟨rfl, rfl⟩
  · rw [if_neg ht]
    exact advance_frontier_go_frame timeSpent inst frontier_ids world states [] r lid hnot

/-- C6 witness: a two-location world where only `loc-0` is in the frontier;
`loc-1` is untouched. -/
theorem c6_advance_frontier_frame_witness :
    ("loc-1" ∉ ["loc-0"]) ∧
    (lookupA "loc-1"
        (advance_frontier 2
          [("loc-0", { id := "loc-0", name := "a", biome := ruinsBiome, danger := 1,
                       encounter := "enemy", description := "", reward_multiplier := 1 }),
           ("loc-1", { id := "loc-1", name := "b", biome := ruinsBiome, danger := 1,
                       encounter := "rest", description := "", reward_multiplier := 1 })]
          ["loc-0"] 5
          [("loc-0", ⟨0, 2, 2⟩), ("loc-1", ⟨0, 3, 3⟩)] (rngConst 0)).2.1 =
      some ⟨0, 3, 3⟩) := by
  constructor
  · decide
  · have h := (c6_advance_frontier_frame 2
      [("loc-0", { id := "loc-0", name := "a", biome := ruinsBiome, danger := 1,
                   encounter := "enemy", description := "", reward_multiplier := 1 }),
       ("loc-1", { id := "loc-1", name := "b", biome := ruinsBiome, danger := 1,
                   encounter := "rest", description := "", reward_multiplier := 1 })]
      ["loc-0"] 5
      [("loc-0", ⟨0, 2, 2⟩), ("loc-1", ⟨0, 3, 3⟩)] (rngConst 0)
      "loc-1" (by decide)).2
    rw [h]
    decide

/-! ### C5 — decay stage invariants -/

theorem advance_decay_loopF_stage (inst : ℚ) :
    ∀ (fuel : ℕ) (st : DecayState) (r : PyRandom),
      st.stage_index ≤ (advance_decay_loopF inst fuel st r).1.stage_index ∧
      (st.stage_index ≤ 3 →
        (advance_decay_loopF inst fuel st r).1.stage_index ≤ 3) := by
  intro fuel
  induction fuel with
  | zero => intro st r; exact ⟨le_refl _, fun h => h⟩
  | succ f ih =>
    intro st r
    rw [advance_decay_loopF]
    by_cases hg : st.remaining ≤ 0 ∧ st.stage_index < DECAY_STAGES.length - 1
    · rw [if_pos hg]
      have hlt3 : st.stage_index < 3 := by
        have h2 := hg.2
        simp only [DECAY_STAGES, List.length] at h2
        omega
      dsimp only
      by_cases hbr : DECAY_STAGES.length - 1 ≤ st.stage_index + 1
      · rw [if_pos hbr]
        dsimp only
        exact ⟨Nat.le_succ _, fun _ => by omega⟩
      · rw [if_neg hbr]
        have hrec := ih
          ⟨st.stage_index + 1, st.remaining + (roll_decay_duration inst r).1,
            (roll_decay_duration inst r).1⟩
          (roll_decay_duration inst r).2
        exact ⟨le_trans (Nat.le_succ _) hrec.1,
          fun _ => hrec.2 (show st.stage_index + 1 ≤ 3 by omega)⟩
    · rw [if_neg hg]
      exact ⟨le_refl _, fun h => h⟩

theorem advance_decay_loop_stage (inst : ℚ) (st : DecayState) (r : PyRandom) :
    st.stage_index ≤ (advance_decay_loop inst st r).1.stage_index ∧
    (st.stage_index ≤ 3 → (advance_decay_loop inst st r).1.stage_index ≤ 3) :=
  advance_decay_loopF_stage inst DECAY_STAGES.length st r

/-- The invariant C5 asserts: every stored decay stage is at most 3, and a
location's `removed` display flag is true exactly when its state's stage is
3. -/
def DecayInv (world : List (String × Location))
    (states : List (String × DecayState)) : Prop :=
  ∀ lid st, lookupA lid states = some st →
    st.stage_index ≤ 3 ∧
    ∀ loc, lookupA lid world = some loc → (loc.removed = true ↔ st.stage_index = 3)

theorem sync_location_removed (loc : Location) (st : DecayState) :
    ((sync_location loc st).removed = true) ↔ 3 ≤ st.stage_index := by
  simp [sync_location, DECAY_STAGES]

theorem advance_frontier_go_inv (timeSpent : ℤ) (inst : ℚ) (ids : List String) :
    ∀ world states acc r, DecayInv world states →
      DecayInv (advance_frontier_go timeSpent inst ids world states acc r).1
        (advance_frontier_go timeSpent inst ids world states acc r).2.1 ∧
      (∀ lid st, lookupA lid states = some st →
        ∃ st', lookupA lid
            (advance_frontier_go timeSpent inst ids world states acc r).2.1 =
          some st' ∧ st.stage_index ≤ st'.stage_index) := by
  induction ids with
  | nil =>
    intro world states acc r hInv
    exact ⟨hInv, fun lid st h => ⟨st, h, le_refl _⟩⟩
  | cons i rest ih =>
    intro world states acc r hInv
    unfold advance_frontier_go
    cases hlook : lookupA i states with
    | none => exact ih world states acc r hInv
    | some st =>
      dsimp only
      by_cases hstage : DECAY_STAGES.length - 1 ≤ st.stage_index
      · rw [if_pos hstage]
        exact ih world states acc r hInv
      · rw [if_neg hstage]
        have hb3 : st.stage_index ≤ 3 := (hInv i st hlook).1
        have hloop := advance_decay_loop_stage inst
          { st with remaining := st.remaining - timeSpent } r
        have hmono : st.stage_index ≤
            (advance_decay_loop inst
              { st with remaining := st.remaining - timeSpent } r).1.stage_index :=
          hloop.1
        have hbound :
            (advance_decay_loop inst
              { st with remaining := st.remaining - timeSpent } r).1.stage_index ≤ 3 :=
          hloop.2 hb3
        cases hlw : lookupA i world with
        | none =>
          have hInv' : DecayInv world
              (putA i (advance_decay_loop inst
                { st with remaining := st.remaining - timeSpent } r).1 states) := by
            intro lid st' hlid
            by_cases hl : lid = i
            · subst hl
              rw [lookupA_putA_eq] at hlid
              cases hlid
              refine ⟨hbound, ?_⟩
              intro loc hloc
              rw [hlw] at hloc
              cases hloc
            · rw [lookupA_putA_ne _ _ _ _ (fun h => hl h.symm)] at hlid
              exact hInv lid st' hlid
          refine ⟨(ih _ _ _ _ hInv').1, ?_⟩
          intro lid st0 h0
          by_cases hl : lid = i
          · subst hl
            rw [hlook] at h0
            cases h0
            obtain ⟨st'', h'', hle⟩ := (ih _ _ _ _ hInv').2 lid _ (lookupA_putA_eq _ _ _)
            exact ⟨st'', h'', le_trans hmono hle⟩
          · obtain ⟨st'', h'', hle⟩ := (ih _ _ _ _ hInv').2 lid st0
              (by rw [lookupA_putA_ne _ _ _ _ (fun h => hl h.symm)]; exact h0)
            exact ⟨st'', h'', hle⟩
        | some loc0 =>
          have hInv' : DecayInv
              (putA i (sync_location loc0 (advance_decay_loop inst
                { st with remaining := st.remaining - timeSpent } r).1) world)
              (putA i (advance_decay_loop inst
                { st with remaining := st.remaining - timeSpent } r).1 states) := by
            intro lid st' hlid
            by_cases hl : lid = i
            · subst hl
              rw [lookupA_putA_eq] at hlid
              cases hlid
              refine ⟨hbound, ?_⟩
              intro loc hloc
              rw [lookupA_putA_eq] at hloc
              cases hloc
              rw [sync_location_removed]
              omega
            · rw [lookupA_putA_ne _ _ _ _ (fun h => hl h.symm)] at hlid
              have := hInv lid st' hlid
              refine ⟨this.1, ?_⟩
              intro loc hloc
              rw [lookupA_putA_ne _ _ _ _ (fun h => hl h.symm)] at hloc
              exact this.2 loc hloc
          refine ⟨(ih _ _ _ _ hInv').1, ?_⟩
          intro lid st0 h0
          by_cases hl : lid = i
          · subst hl
            rw [hlook] at h0
            cases h0
            obtain ⟨st'', h'', hle⟩ := (ih _ _ _ _ hInv').2 lid _ (lookupA_putA_eq _ _ _)
            exact ⟨st'', h'', le_trans hmono hle⟩
          · obtain ⟨st'', h'', hle⟩ := (ih _ _ _ _ hInv').2 lid st0
              (by rw [lookupA_putA_ne _ _ _ _ (fun h => hl h.symm)]; exact h0)
            exact ⟨st'', h'', hle⟩

theorem advance_frontier_inv (timeSpent : ℤ) (world : List (String × Location))
    (ids : List String) (inst : ℚ) (states : List (String × DecayState))
    (r : PyRandom) (hInv : DecayInv world states) :
    DecayInv (advance_frontier timeSpent world ids inst states r).1
      (advance_frontier timeSpent world ids inst states r).2.1 ∧
    (∀ lid st, lookupA lid states = some st →
      ∃ st', lookupA lid (advance_frontier timeSpent world ids inst states r).2.1 =
        some st' ∧ st.stage_index ≤ st'.stage_index) := by
  unfold advance_frontier
  by_cases ht : timeSpent ≤ 0
  · rw [if_pos ht]
    exact ⟨hInv, fun lid st h => ⟨st, h, le_refl _⟩⟩
  · rw [if_neg ht]
    exact advance_frontier_go_inv timeSpent inst ids world states [] r hInv

theorem run_advances_inv (calls : List AdvanceCall) :
    ∀ world states r, DecayInv world states →
      DecayInv (run_advances calls world states r).1
        (run_advances calls world states r).2.1 ∧
      (∀ lid st, lookupA lid states = some st →
        ∃ st', lookupA lid (run_advances calls world states r).2.1 = some st' ∧
          st.stage_index ≤ st'.stage_index) := by
  induction calls with
  | nil =>
    intro world states r hInv
    exact ⟨hInv, fun lid st h => ⟨st, h, le_refl _⟩⟩
  | cons c cs ih =>
    intro world states r hInv
    unfold run_advances
    have hstep := advance_frontier_inv c.timeSpent world c.frontier_ids c.instability
      states r hInv
    refine ⟨(ih _ _ _ hstep.1).1, ?_⟩
    intro lid st h0
    obtain ⟨st₁, h₁, hle₁⟩ := hstep.2 lid st h0
    obtain ⟨st₂, h₂, hle₂⟩ := (ih _ _ _ hstep.1).2 lid st₁ h₁
    exact ⟨st₂, h₂, le_trans hle₁ hle₂⟩

theorem initialize_go_states (inst : ℚ) :
    ∀ (l : List (String × Location)) acc r lid st,
      lookupA lid (initialize_go inst l acc r).2.1 = some st →
      st.stage_index = 0 ∨ lookupA lid acc = some st := by
  intro l
  induction l with
  | nil => intro acc r lid st h; exact Or.inr h
  | cons p rest ih =>
    obtain ⟨k, loc⟩ := p
    intro acc r lid st h
    unfold initialize_go at h
    dsimp only at h
    rcases ih _ _ lid st h with h0 | hacc
    · exact Or.inl h0
    · by_cases hl : lid = loc.id
      · subst hl
        rw [lookupA_putA_eq] at hacc
        cases hacc
        exact Or.inl rfl
      · rw [lookupA_putA_ne _ _ _ _ (fun h' => hl h'.symm)] at hacc
        exact Or.inr hacc

theorem initialize_go_world (inst : ℚ) :
    ∀ (l : List (String × Location)) acc r lid loc,
      lookupA lid (initialize_go inst l acc r).1 = some loc →
      loc.removed = false := by
  intro l
  induction l with
  | nil => intro acc r lid loc h; cases h
  | cons p rest ih =>
    obtain ⟨k, loc0⟩ := p
    intro acc r lid loc h
    unfold initialize_go at h
    dsimp only [lookupA] at h
    by_cases hk : k = lid
    · rw [if_pos hk] at h
      cases h
      simp [sync_location, DECAY_STAGES]
    · rw [if_neg hk] at h
      exact ih _ _ lid loc h

theorem initialize_locations_inv (inst : ℚ) (locations : List (String × Location))
    (r : PyRandom) :
    DecayInv (initialize_locations inst locations r).1
      (initialize_locations inst locations r).2.1 := by
  intro lid st hst
  unfold initialize_locations at hst ⊢
  have h0 : st.stage_index = 0 := by
    rcases initialize_go_states inst locations [] r lid st hst with h | h
    · exact h
    · cases h
  refine ⟨by omega, ?_⟩
  intro loc hloc
  have hrem := initialize_go_world inst locations [] r lid loc hloc
  rw [hrem]
  simp [h0]

/-- Running a concatenated sequence of advance calls is running the first
part and then the second from where it left off. -/
theorem run_advances_append (a b : List AdvanceCall) :
    ∀ w s r, run_advances (a ++ b) w s r =
      run_advances b (run_advances a w s r).1 (run_advances a w s r).2.1
        (run_advances a w s r).2.2 := by
  induction a with
  | nil => intro w s r; rfl
  | cons c cs ih =>
    intro w s r
    rw [List.cons_append]
    show run_advances (cs ++ b) _ _ _ = _
    rw [ih]
    rfl

/-- C5: starting from `initialize_locations` and running any sequence of
`advance_frontier` calls (any time amounts, frontier id sets, instabilities):
in the final state every location's decay stage is at most 3 and the
location's `removed` display flag is true exactly when its stage is 3; and
the stage is non-decreasing along the whole trajectory — for any two
intermediate points of the sequence (the state after the calls `pre` and the
state after `pre ++ mid`, for any split `calls = pre ++ mid ++ post`), the
earlier stage is at most the later one. -/
theorem c5_decay_stage_invariant (locations : List (String × Location))
    (inst : ℚ) (r : PyRandom) (calls : List AdvanceCall) :
    (∀ lid st, lookupA lid
        (run_advances calls (initialize_locations inst locations r).1
          (initialize_locations inst locations r).2.1
          (initialize_locations inst locations r).2.2).2.1 = some st →
      st.stage_index ≤ 3 ∧
      ∀ loc, lookupA lid
          (run_advances calls (initialize_locations inst locations r).1
            (initialize_locations inst locations r).2.1
            (initialize_locations inst locations r).2.2).1 = some loc →
        (loc.removed = true ↔ st.stage_index = 3)) ∧
    (∀ pre mid post, calls = pre ++ mid ++ post →
      ∀ lid st₀, lookupA lid
          (run_advances pre (initialize_locations inst locations r).1
            (initialize_locations inst locations r).2.1
            (initialize_locations inst locations r).2.2).2.1 = some st₀ →
        ∃ st₁, lookupA lid
            (run_advances (pre ++ mid) (initialize_locations inst locations r).1
              (initialize_locations inst locations r).2.1
              (initialize_locations inst locations r).2.2).2.1 = some st₁ ∧
          st₀.stage_index ≤ st₁.stage_index) := by
  have hInit := initialize_locations_inv inst locations r
  have hRun := run_advances_inv calls (initialize_locations inst locations r).1
    (initialize_locations inst locations r).2.1
    (initialize_locations inst locations r).2.2 hInit
  refine ⟨hRun.1, ?_⟩
  intro pre mid post hsplit lid st₀ h₀
  have hPre := run_advances_inv pre (initialize_locations inst locations r).1
    (initialize_locations inst locations r).2.1
    (initialize_locations inst locations r).2.2 hInit
  have hMid := run_advances_inv mid
    (run_advances pre (initialize_locations inst locations r).1
      (initialize_locations inst locations r).2.1
      (initialize_locations inst locations r).2.2).1
    (run_advances pre (initialize_locations inst locations r).1
      (initialize_locations inst locations r).2.1
      (initialize_locations inst locations r).2.2).2.1
    (run_advances pre (initialize_locations inst locations r).1
      (initialize_locations inst locations r).2.1
      (initialize_locations inst locations r).2.2).2.2 hPre.1
  rw [run_advances_append]
  exact hMid.2 lid st₀ h₀

/-- A one-location world used to exercise the C5 invariant concretely. -/
def c5World : List (String × Location) :=
  [("loc-0", { id := "loc-0", name := "a", biome := ruinsBiome, danger := 1,
               encounter := "enemy", description := "", reward_multiplier := 1 })]

/-- C5 witness: one location, two advance calls (times 2 and 100,
split as `pre = [first]`, `mid = [second]`, `post = []`).  After the first
call the stage has grown from 0 to 1; the trajectory-monotonicity conjunct
applied at that split bounds the mid stage 1 by the final stage 3; the final
state has stage 3 (at most 3) and the display flag reads removed. -/
theorem c5_decay_stage_invariant_witness :
    ([⟨2, ["loc-0"], 5⟩, ⟨100, ["loc-0"], 5⟩] : List AdvanceCall) =
        [⟨2, ["loc-0"], 5⟩] ++ [⟨100, ["loc-0"], 5⟩] ++ [] ∧
    lookupA "loc-0"
        (run_advances [⟨2, ["loc-0"], 5⟩]
          (initialize_locations 5 c5World (rngConst 0)).1
          (initialize_locations 5 c5World (rngConst 0)).2.1
          (initialize_locations 5 c5World (rngConst 0)).2.2).2.1 =
      some ⟨1, 2, 2⟩ ∧
    lookupA "loc-0"
        (run_advances ([⟨2, ["loc-0"], 5⟩] ++ [⟨100, ["loc-0"], 5⟩])
          (initialize_locations 5 c5World (rngConst 0)).1
          (initialize_locations 5 c5World (rngConst 0)).2.1
          (initialize_locations 5 c5World (rngConst 0)).2.2).2.1 =
      some ⟨3, -96, 2⟩ ∧
    (⟨1, 2, 2⟩ : DecayState).stage_index ≤ (⟨3, -96, 2⟩ : DecayState).stage_index ∧
    lookupA "loc-0"
        (run_advances [⟨2, ["loc-0"], 5⟩, ⟨100, ["loc-0"], 5⟩]
          (initialize_locations 5 c5World (rngConst 0)).1
          (initialize_locations 5 c5World (rngConst 0)).2.1
          (initialize_locations 5 c5World (rngConst 0)).2.2).2.1 =
      some ⟨3, -96, 2⟩ ∧
    (⟨3, -96, 2⟩ : DecayState).stage_index ≤ 3 ∧
    (lookupA "loc-0"
        (run_advances [⟨2, ["loc-0"], 5⟩, ⟨100, ["loc-0"], 5⟩]
          (initialize_locations 5 c5World (rngConst 0)).1
          (initialize_locations 5 c5World (rngConst 0)).2.1
          (initialize_locations 5 c5World (rngConst 0)).2.2).1).map
      Location.removed = some true := by
  have h := c5_decay_stage_invariant c5World 5 (rngConst 0)
    [⟨2, ["loc-0"], 5⟩, ⟨100, ["loc-0"], 5⟩]
  have hmid : lookupA "loc-0"
      (run_advances [⟨2, ["loc-0"], 5⟩]
        (initialize_locations 5 c5World (rngConst 0)).1
        (initialize_locations 5 c5World (rngConst 0)).2.1
        (initialize_locations 5 c5World (rngConst 0)).2.2).2.1 =
      some ⟨1, 2, 2⟩ := by with_unfolding_all rfl
  obtain ⟨st₁, h₁, hle⟩ := h.2 [⟨2, ["loc-0"], 5⟩] [⟨100, ["loc-0"], 5⟩] [] rfl
    "loc-0" ⟨1, 2, 2⟩ hmid
  have hfin : lookupA "loc-0"
      (run_advances ([⟨2, ["loc-0"], 5⟩] ++ [⟨100, ["loc-0"], 5⟩])
        (initialize_locations 5 c5World (rngConst 0)).1
        (initialize_locations 5 c5World (rngConst 0)).2.1
        (initialize_locations 5 c5World (rngConst 0)).2.2).2.1 =
      some ⟨3, -96, 2⟩ := by with_unfolding_all rfl
  have hst : st₁ = ⟨3, -96, 2⟩ := Option.some_inj.mp (h₁.symm.trans hfin)
  have hfinal := h.1 "loc-0" ⟨3, -96, 2⟩ (by with_unfolding_all rfl)
  exact ⟨rfl, hmid, hfin, hst ▸ hle, by with_unfolding_all rfl, hfinal.1,
    by with_unfolding_all rfl⟩

/-! ### C7 — forward edges progress, acyclicity of the forward subgraph -/

theorem getD_mem_of_lt {α : Type} (l : List α) (i : ℕ) (d : α) (h : i < l.length) :
    l.getD i d ∈ l := by
  rw [List.getD_eq_get?, List.get?_eq_get h]
  exact List.get_mem l i h

theorem get?_eq_some_getD {α : Type} (l : List α) (i : ℕ) (d : α) (h : i < l.length) :
    l.get? i = some (l.getD i d) := by
  rw [List.getD_eq_get?, List.get?_eq_get h]
  rfl

theorem locId_injective : Function.Injective locId := by
  intro a b h
  apply natRepr_injective
  apply String.ext
  have hd := congrArg String.data h
  rw [locId, locId, String.data_append, String.data_append] at hd
  exact List.append_cancel_left hd

theorem shuffleF_mem {α : Type} :
    ∀ (fuel : ℕ) (l : List α) (r : PyRandom),
      ∀ y ∈ (PyRandom.shuffleF fuel r l).1, y ∈ l := by
  intro fuel
  induction fuel with
  | zero => intro l r y hy; exact hy
  | succ f ih =>
    intro l r y hy
    cases l with
    | nil => cases hy
    | cons x xs =>
      rw [PyRandom.shuffleF] at hy
      dsimp only at hy
      rcases List.mem_cons.mp hy with rfl | htail
      · exact getD_mem_of_lt _ _ _ (Nat.mod_lt _ (by simp))
      · exact List.eraseIdx_subset _ _ (ih _ r.next.2 y htail)

/-- Everything the shuffle model returns was in the input list. -/
theorem shuffle_mem {α : Type} (r : PyRandom) (l : List α) :
    ∀ y ∈ (r.shuffle l).1, y ∈ l :=
  shuffleF_mem l.length l r

/-- Every exit produced by the forward-exit loop points at a supplied target
index, with a rotating label from `exitLabels`. -/
theorem forwardExitsGo_spec (nodes : List Location) :
    ∀ (ts : List ℕ) (pos : ℕ) (r : PyRandom) e,
      e ∈ (forwardExitsGo nodes pos ts r).1 →
      ∃ t ∈ ts, e.destination = (nodes.getD t default).id ∧ e.label ∈ exitLabels := by
  intro ts
  induction ts with
  | nil => intro pos r e he; cases he
  | cons t ts ih =>
    intro pos r e he
    rw [forwardExitsGo] at he
    dsimp only at he
    rcases List.mem_cons.mp he with rfl | htail
    · refine ⟨t, List.mem_cons_self _ _, rfl, ?_⟩
      exact getD_mem_of_lt _ _ _ (Nat.mod_lt _ (by simp [exitLabels]))
    · obtain ⟨t', ht', hd, hl⟩ := ih (pos + 1) _ e htail
      exact ⟨t', List.mem_cons_of_mem _ ht', hd, hl⟩

theorem buildNodesFrom_length :
    ∀ (count i : ℕ) (r : PyRandom), (buildNodesFrom count i r).1.length = count := by
  intro count
  induction count with
  | zero => intro i r; rfl
  | succ c ih =>
    intro i r
    rw [buildNodesFrom]
    dsimp only
    rw [List.length_cons, ih]

theorem buildNodesFrom_id :
    ∀ (count i : ℕ) (r : PyRandom) (j : ℕ), j < count →
      ((buildNodesFrom count i r).1.getD j default).id = locId (i + j) := by
  intro count
  induction count with
  | zero => intro i r j hj; omega
  | succ c ih =>
    intro i r j hj
    rw [buildNodesFrom]
    dsimp only
    cases j with
    | zero => rfl
    | succ j' =>
      rw [List.getD_cons_succ, ih (i + 1) (build_location r i).2 j' (by omega)]
      congr 1
      omega

theorem connectGo_length (nodes : List Location) (n : ℕ) :
    ∀ (count i : ℕ) (lc : Option ℕ) (r : PyRandom),
      (connectGo nodes n count i lc r).1.length = count := by
  intro count
  induction count with
  | zero => intro i lc r; rfl
  | succ c ih =>
    intro i lc r
    rw [connectGo]
    dsimp only
    by_cases hlast : i = n - 1
    · rw [if_pos hlast]
      dsimp only
      rw [List.length_cons, ih]
    · rw [if_neg hlast]
      dsimp only
      rw [List.length_cons, ih]

theorem connectGo_last (nodes : List Location) (n : ℕ) :
    ∀ (count i : ℕ) (lc : Option ℕ) (r : PyRandom), i < n → n - i ≤ count →
      (connectGo nodes n count i lc r).1.getD (n - 1 - i) [] = [] := by
  intro count
  induction count with
  | zero => intro i lc r hi hc; omega
  | succ c ih =>
    intro i lc r hi hc
    rw [connectGo]
    dsimp only
    by_cases hlast : i = n - 1
    · rw [if_pos hlast]
      have h0 : n - 1 - i = 0 := by omega
      rw [h0]
      rfl
    · rw [if_neg hlast]
      dsimp only
      have hs : n - 1 - i = (n - 1 - (i + 1)) + 1 := by omega
      rw [hs, List.getD_cons_succ]
      exact ih (i + 1) _ _ (by omega) (by omega)

/-- Structure of every exit list produced by the connection loop: each exit of
the node at index `i + k` is either a forward exit to an index in
`(i+k, i+k+2]` (labelled from the rotating `exitLabels`) or the back edge to a
strictly earlier rest-type node labelled "double back to camp". -/
theorem connectGo_spec (nodes : List Location) (n : ℕ) :
    ∀ (count i : ℕ) (lastCamp : Option ℕ) (r : PyRandom),
      (∀ c, lastCamp = some c → c < i ∧ (nodes.getD c default).encounter = "rest") →
      ∀ k e, e ∈ (connectGo nodes n count i lastCamp r).1.getD k [] →
        (∃ j, i + k < j ∧ j ≤ i + k + 2 ∧ j < n ∧
          e.destination = (nodes.getD j default).id ∧ e.label ∈ exitLabels) ∨
        (∃ c, c < i + k ∧ (nodes.getD c default).encounter = "rest" ∧
          e.destination = (nodes.getD c default).id ∧
          e.label = "double back to camp") := by
  intro count
  induction count with
  | zero =>
    intro i lc r hlc k e he
    simp [connectGo] at he
  | succ km ih =>
    intro i lc r hlc k e he
    rw [connectGo] at he
    dsimp only at he
    have hlc' : ∀ c,
        (if (nodes.getD i default).encounter = "rest" then some i else lc) = some c →
        c ≤ i ∧ (nodes.getD c default).encounter = "rest" := by
      intro c hc
      by_cases hrest : (nodes.getD i default).encounter = "rest"
      · rw [if_pos hrest] at hc
        injection hc with hc
        subst hc
        exact ⟨le_refl _, hrest⟩
      · rw [if_neg hrest] at hc
        have hcc := hlc c hc
        exact ⟨le_of_lt hcc.1, hcc.2⟩
    have hlc'' : ∀ c,
        (if (nodes.getD i default).encounter = "rest" then some i else lc) = some c →
        c < i + 1 ∧ (nodes.getD c default).encounter = "rest" := by
      intro c hc
      have hcc := hlc' c hc
      exact ⟨by omega, hcc.2⟩
    by_cases hlast : i = n - 1
    · rw [if_pos hlast] at he
      cases k with
      | zero =>
        rw [List.getD_cons_zero] at he
        cases he
      | succ k' =>
        rw [List.getD_cons_succ] at he
        rcases ih (i + 1) _ _ hlc'' k' e he with
          ⟨j, h1, h2, h3, h4, h5⟩ | ⟨c, h1, h2, h3, h4⟩
        · exact Or.inl ⟨j, by omega, by omega, h3, h4, h5⟩
        · exact Or.inr ⟨c, by omega, h2, h3, h4⟩
    · rw [if_neg hlast] at he
      dsimp only at he
      cases k with
      | succ k' =>
        rw [List.getD_cons_succ] at he
        rcases ih (i + 1) _ _ hlc'' k' e he with
          ⟨j, h1, h2, h3, h4, h5⟩ | ⟨c, h1, h2, h3, h4⟩
        · exact Or.inl ⟨j, by omega, by omega, h3, h4, h5⟩
        · exact Or.inr ⟨c, by omega, h2, h3, h4⟩
      | zero =>
        rw [List.getD_cons_zero] at he
        rcases List.mem_append.mp he with hf | hb
        · obtain ⟨t, ht, hdest, hlabel⟩ := forwardExitsGo_spec nodes _ 0 _ e hf
          have ht1 : t ∈ (PyRandom.shuffle _ (List.range' (i + 1)
              (min n (i + 3) - (i + 1)))).1 := List.take_subset _ _ ht
          have ht2 : t ∈ List.range' (i + 1) (min n (i + 3) - (i + 1)) :=
            shuffle_mem _ _ t ht1
          rw [List.mem_range'] at ht2
          obtain ⟨o, ho, hto⟩ := ht2
          exact Or.inl ⟨t, by omega, by omega, by omega, hdest, hlabel⟩
        · rcases hcase : (if (nodes.getD i default).encounter = "rest"
              then some i else lc) with _ | c
          · rw [hcase] at hb
            dsimp only at hb
            cases hb
          · rw [hcase] at hb
            dsimp only at hb
            by_cases hne : (nodes.getD c default).id ≠ (nodes.getD i default).id
            · rw [if_pos hne] at hb
              have hb' := List.mem_singleton.mp hb
              subst hb'
              have hci := hlc' c hcase
              have hcx : c ≠ i := by
                intro hci'
                subst hci'
                exact hne rfl
              exact Or.inr ⟨c, by omega, hci.2, rfl, rfl⟩
            · rw [if_neg hne] at hb
              cases hb

theorem zipWith_getD {α β γ : Type} (f : α → β → γ) :
    ∀ (as : List α) (bs : List β) (j : ℕ) (da : α) (db : β) (dc : γ),
      j < as.length → j < bs.length →
      (List.zipWith f as bs).getD j dc = f (as.getD j da) (bs.getD j db) := by
  intro as
  induction as with
  | nil => intro bs j da db dc hj _; simp at hj
  | cons a as ih =>
    intro bs j da db dc hja hjb
    cases bs with
    | nil => simp at hjb
    | cons b bs =>
      cases j with
      | zero => rfl
      | succ j' =>
        rw [List.zipWith_cons_cons, List.getD_cons_succ, List.getD_cons_succ,
          List.getD_cons_succ]
        exact ih bs j' da db dc (by simpa using hja) (by simpa using hjb)

theorem map_pair_get? (l : List Location) (j : ℕ) (hj : j < l.length) :
    (l.map (fun loc => (loc.id, loc))).get? j =
      some ((l.getD j default).id, l.getD j default) := by
  rw [List.get?_map, get?_eq_some_getD l j default hj]
  rfl

theorem map_pair_get?_inv (l : List Location) (j : ℕ) (p : String × Location)
    (h : (l.map (fun loc => (loc.id, loc))).get? j = some p) :
    j < l.length ∧ p = ((l.getD j default).id, l.getD j default) := by
  have hj : j < l.length := by
    by_contra hge
    rw [List.get?_eq_none.mpr (by simpa using hge)] at h
    cases h
  rw [map_pair_get? l j hj] at h
  exact ⟨hj, (Option.some_inj.mp h).symm⟩

theorem exitLabels_ne_camp (s : String) (h : s ∈ exitLabels) :
    s ≠ "double back to camp" := by
  simp only [exitLabels, List.mem_cons, List.not_mem_nil, or_false] at h
  rcases h with rfl | rfl | rfl <;> decide

/-- A camp back-edge is identified by its fixed label, which no forward exit
carries. -/
def isCampEdge (e : Exit) : Prop := e.label = "double back to camp"

/-- Forward step between node positions in a generated graph: some non-camp
exit of the node at position `a` has the id of the node at position `b` as its
destination. -/
def fwdStep (w : WorldGraph) (a b : ℕ) : Prop :=
  ∃ pa, w.nodes.get? a = some pa ∧ ∃ pb, w.nodes.get? b = some pb ∧
    ∃ e ∈ pa.2.exits, ¬ isCampEdge e ∧ e.destination = pb.1

/-- C7: in every generated world, (1) every exit is either a forward exit to a
generation index strictly greater than its source and at most two ahead (and
inside the graph), or the camp back-edge to a strictly earlier rest node;
(2) the last generated node has no exits at all; (3) the forward-step relation
strictly increases the index by at most 2; and (4) the forward subgraph is
acyclic, so every forward path is finite. -/
theorem c7_forward_dag (seed steps : ℤ) :
    (∀ j p, (generate_world (some seed) steps).nodes.get? j = some p →
      ∀ e ∈ p.2.exits,
        (¬ isCampEdge e → ∃ j', j < j' ∧ j' ≤ j + 2 ∧
          j' < (generate_world (some seed) steps).nodes.length ∧
          e.destination = locId j') ∧
        (isCampEdge e → ∃ c, c < j ∧ e.destination = locId c ∧
          ∃ pc, (generate_world (some seed) steps).nodes.get? c = some pc ∧
            pc.2.encounter = "rest")) ∧
    ((generate_world (some seed) steps).nodes.getD
        ((generate_world (some seed) steps).nodes.length - 1) default).2.exits = [] ∧
    (∀ a b, fwdStep (generate_world (some seed) steps) a b → a < b ∧ b ≤ a + 2) ∧
    (∀ a, ¬ Relation.TransGen (fwdStep (generate_world (some seed) steps)) a a) := by
  unfold generate_world
  dsimp only
  set N := (max 3 steps).toNat with hNdef
  set r₀ := mkRandom (some seed) with hr0
  set nodesL := (buildNodesFrom N 0 r₀).1 with hnodesL
  set rB := (buildNodesFrom N 0 r₀).2 with hrB
  set exL := (connectGo nodesL N N 0 none rB).1 with hexL
  set nodes2 := List.zipWith (fun (loc : Location) ex => { loc with exits := ex })
    nodesL exL with hnodes2
  have hN3 : 3 ≤ N := by
    have h3 : (3 : ℤ) ≤ max 3 steps := le_max_left _ _
    omega
  have hlenL : nodesL.length = N := by
    rw [hnodesL]
    exact buildNodesFrom_length N 0 r₀
  have hlenE : exL.length = N := by
    rw [hexL]
    exact connectGo_length nodesL N N 0 none rB
  have hlen2 : nodes2.length = N := by
    rw [hnodes2, List.length_zipWith, hlenL, hlenE, min_self]
  have hid2 : ∀ j, j < N → (nodes2.getD j default).id = locId j := by
    intro j hj
    rw [hnodes2, zipWith_getD _ nodesL exL j default [] default
      (by omega) (by omega)]
    show (nodesL.getD j default).id = locId j
    have := buildNodesFrom_id N 0 r₀ j (by omega)
    simpa using this
  have hexits2 : ∀ j, j < N → (nodes2.getD j default).exits = exL.getD j [] := by
    intro j hj
    rw [hnodes2, zipWith_getD _ nodesL exL j default [] default
      (by omega) (by omega)]
  have henc2 : ∀ j, j < N →
      (nodes2.getD j default).encounter = (nodesL.getD j default).encounter := by
    intro j hj
    rw [hnodes2, zipWith_getD _ nodesL exL j default [] default
      (by omega) (by omega)]
  have hcampPre : ∀ c : ℕ, (none : Option ℕ) = some c →
      c < 0 ∧ (nodesL.getD c default).encounter = "rest" := by
    intro c hc
    cases hc
  have part1 : ∀ j p,
      (nodes2.map (fun loc => (loc.id, loc))).get? j = some p →
      ∀ e ∈ p.2.exits,
        (¬ isCampEdge e → ∃ j', j < j' ∧ j' ≤ j + 2 ∧
          j' < (nodes2.map (fun loc => (loc.id, loc))).length ∧
          e.destination = locId j') ∧
        (isCampEdge e → ∃ c, c < j ∧ e.destination = locId c ∧
          ∃ pc, (nodes2.map (fun loc => (loc.id, loc))).get? c = some pc ∧
            pc.2.encounter = "rest") := by
    intro j p hp e he
    obtain ⟨hj2, hpv⟩ := map_pair_get?_inv nodes2 j p hp
    have hjN : j < N := by omega
    rw [hpv] at he
    dsimp only at he
    rw [hexits2 j hjN] at he
    have hspec := connectGo_spec nodesL N N 0 none rB hcampPre j e
      (by simpa using he)
    constructor
    · intro hnc
      rcases hspec with ⟨j', h1, h2, h3, h4, h5⟩ | ⟨c, _, _, _, hlab⟩
      · refine ⟨j', by omega, by omega, ?_, ?_⟩
        · rw [List.length_map]; omega
        · rw [h4]
          have := buildNodesFrom_id N 0 r₀ j' (by omega)
          simpa using this
      · exact absurd hlab hnc
    · intro hc
      rcases hspec with ⟨j', _, _, _, _, hlab⟩ | ⟨c, h1, h2, h3, _⟩
      · exact absurd hc (exitLabels_ne_camp e.label hlab)
      · refine ⟨c, by omega, ?_, ?_⟩
        · rw [h3]
          have := buildNodesFrom_id N 0 r₀ c (by omega)
          simpa using this
        · refine ⟨((nodes2.getD c default).id, nodes2.getD c default), ?_, ?_⟩
          · exact map_pair_get? nodes2 c (by omega)
          · show (nodes2.getD c default).encounter = "rest"
            rw [henc2 c (by omega)]
            exact h2
  refine ⟨part1, ?_, ?_⟩
  · -- last node has no exits
    rw [List.length_map, hlen2]
    rw [List.getD_eq_get?, map_pair_get? nodes2 (N - 1) (by omega)]
    show (nodes2.getD (N - 1) default).exits = []
    rw [hexits2 (N - 1) (by omega)]
    have := connectGo_last nodesL N N 0 none rB (by omega) (by omega)
    simpa using this
  · have part3 : ∀ a b, fwdStep ⟨nodes2.map (fun loc => (loc.id, loc)),
        (nodes2.headD default).id⟩ a b → a < b ∧ b ≤ a + 2 := by
      intro a b hab
      obtain ⟨pa, hpa, pb, hpb, e, he, hnc, hdest⟩ := hab
      obtain ⟨j', h1, h2, h3, h4⟩ := (part1 a pa hpa e he).1 hnc
      obtain ⟨hbN, hpbv⟩ := map_pair_get?_inv nodes2 b pb hpb
      have hb1 : pb.1 = locId b := by
        rw [hpbv]
        exact hid2 b (by omega)
      have hlb : locId j' = locId b := by rw [← h4, hdest, hb1]
      have hj'b : j' = b := locId_injective hlb
      subst hj'b
      exact ⟨h1, h2⟩
    refine ⟨part3, ?_⟩
    intro a htg
    have hlt : ∀ x y, Relation.TransGen
        (fwdStep ⟨nodes2.map (fun loc => (loc.id, loc)),
          (nodes2.headD default).id⟩) x y → x < y := by
      intro x y h
      induction h with
      | single h => exact (part3 _ _ h).1
      | tail _ h₂ ih => exact lt_trans ih (part3 _ _ h₂).1
    exact absurd (hlt a a htg) (lt_irrefl a)

/-- C7 witness: seed 0, steps 3.  Node 0's single exit "veer left" is a
forward exit whose destination index is 1 or 2; the last node has no exits;
no forward cycle returns to node 0. -/
theorem c7_forward_dag_witness :
    ((Exit.mk "loc-2" "veer left" 2 "toward hollow caverns").destination = locId 1 ∨
      (Exit.mk "loc-2" "veer left" 2 "toward hollow caverns").destination = locId 2) ∧
    ((generate_world (some 0) 3).nodes.getD
        ((generate_world (some 0) 3).nodes.length - 1) default).2.exits = [] ∧
    ¬ Relation.TransGen (fwdStep (generate_world (some 0) 3)) 0 0 := by
  have hmain := c7_forward_dag 0 3
  have hp : (generate_world (some 0) 3).nodes.get? 0 =
      some ((generate_world (some 0) 3).nodes.getD 0 default) := by
    with_unfolding_all rfl
  have hmem : (Exit.mk "loc-2" "veer left" 2 "toward hollow caverns") ∈
      ((generate_world (some 0) 3).nodes.getD 0 default).2.exits := by
    have hex : ((generate_world (some 0) 3).nodes.getD 0 default).2.exits =
        [Exit.mk "loc-2" "veer left" 2 "toward hollow caverns"] := by
      with_unfolding_all rfl
    rw [hex]
    exact List.mem_singleton_self _
  have hnc : ¬ isCampEdge (Exit.mk "loc-2" "veer left" 2 "toward hollow caverns") := by
    simp [isCampEdge]
  obtain ⟨j', hj1, hj2, _, hj4⟩ := (hmain.1 0 _ hp _ hmem).1 hnc
  refine ⟨?_, hmain.2.1, hmain.2.2.2 0⟩
  have hcases : j' = 1 ∨ j' = 2 := by omega
  rcases hcases with rfl | rfl
  · exact Or.inl hj4
  · exact Or.inr hj4

end Roguelite